import Mathlib

/-!
Verification of the mcpify gateway's expression evaluator, forwarding
resolver, JSON-RPC protocol engine and stdio transport, as a shallow
embedding of the Go sources (internal/config, internal/openapi server part,
internal/handlers).

Go strings are modelled as lists of characters (`GoStr`); Go's byte-index
bookkeeping coincides with character indices on the ASCII inputs the
evaluator grammar handles.  `encoding/json` and the PaesslerAG jsonpath
library are modelled by an executable JSON parser/serializer and an
executable path interpreter for the `$`-rooted dot/bracket micro-grammar
that the evaluator actually emits; a jsonpath failure is either a parse
error, an out-of-range index, a type mismatch, or the library's
"unknown key" error, which is the only error class whose text contains
the substrings ("unknown key" / "not found") that the Go code treats as a
silent not-found.
-/

namespace Mcpify

/-- Characters of a Go string. -/
abbrev GoStr := List Char

/-- Model of Go `strings.ToLower` (ASCII range, which covers every input the
evaluator grammar accepts). -/
def golower (s : GoStr) : GoStr := s.map Char.toLower

/-- Index of the first occurrence of `c` in `s` (Go `strings.Index` for a
one-character needle). -/
def goIndexOf (s : GoStr) (c : Char) : Option Nat :=
  match s with
  | [] => none
  | a :: rest => if a = c then some 0 else (goIndexOf rest c).map (· + 1)

/-- Index of the first occurrence of `c` in `s` at position `start` or later
(the Go loops `for i := start; i < len(s); i++`). -/
def goIndexOfFrom (s : GoStr) (c : Char) (start : Nat) : Option Nat :=
  (goIndexOf (s.drop start) c).map (· + start)

/-- Go slice `s[a:b]`. -/
def goSlice (s : GoStr) (a b : Nat) : GoStr := (s.take b).drop a

/-- Whether `c` belongs to the cutset `"'\""` of the Go `strings.Trim` call
that strips the quotes around a bracketed key. -/
def isQuoteChar (c : Char) : Bool := c = '\'' || c = '"'

/-- Model of Go `strings.Trim(s, "'\"")`: strip leading and trailing quote
characters. -/
def trimQuotes (s : GoStr) : GoStr :=
  ((s.dropWhile isQuoteChar).reverse.dropWhile isQuoteChar).reverse

/-- Model of Go `strings.Contains s sub`. -/
def goContains (s sub : GoStr) : Bool :=
  (List.range (s.length + 1)).any fun i => List.isPrefixOf sub (s.drop i)

/-! ### JSON values (model of `encoding/json` documents)

Numbers keep their source numeral text: the claims under verification never
coerce a numeric leaf, so the float64 round-trip normalization that Go
performs on exotic numerals is not modelled. -/

/-- A parsed JSON document, as produced by `json.Unmarshal` into
`interface\x7b\x7d`.  Object fields carry unique keys (a repeated key keeps the
later occurrence, as a Go map does). -/
inductive Json where
  | null : Json
  | bool (b : Bool) : Json
  | num (text : GoStr) : Json
  | str (s : GoStr) : Json
  | arr (xs : List Json) : Json
  | obj (fields : List (GoStr × Json)) : Json

/-- Look a key up among an object's fields. -/
def lookupField (fields : List (GoStr × Json)) (k : GoStr) : Option Json :=
  (fields.find? fun p => p.1 == k).map Prod.snd

/-- Skip JSON whitespace. -/
def skipWs (s : GoStr) : GoStr :=
  match s with
  | [] => []
  | c :: rest =>
    if c = ' ' ∨ c = '\t' ∨ c = '\n' ∨ c = '\r' then skipWs rest else c :: rest

/-- Read the body of a JSON string literal after its opening quote; returns
the decoded characters and the remaining input after the closing quote.
Models the escapes the claims' documents can contain (`\"`, `\\`, `\/`,
`\n`, `\t`, `\r`, `\b`, `\f`); `\uXXXX` is not modelled. -/
def parseStringBody : Nat → GoStr → Option (GoStr × GoStr)
  | 0, _ => none
  | _ + 1, [] => none
  | fuel + 1, c :: rest =>
    if c = '"' then some ([], rest)
    else if c = '\\' then
      match rest with
      | [] => none
      | e :: rest2 =>
        let esc : Option Char :=
          if e = '"' then some '"'
          else if e = '\\' then some '\\'
          else if e = '/' then some '/'
          else if e = 'n' then some '\n'
          else if e = 't' then some '\t'
          else if e = 'r' then some '\r'
          else if e = 'b' then some (Char.ofNat 8)
          else if e = 'f' then some (Char.ofNat 12)
          else none
        match esc with
        | none => none
        | some ch =>
          match parseStringBody fuel rest2 with
          | some (sfx, r) => some (ch :: sfx, r)
          | none => none
    else if c.toNat < 32 then none
    else
      match parseStringBody fuel rest with
      | some (sfx, r) => some (c :: sfx, r)
      | none => none

/-- Read a JSON numeral (sign, integer part without leading zeros, optional
fraction, optional exponent); returns its text and the remaining input. -/
def parseNumberText (s : GoStr) : Option (GoStr × GoStr) :=
  let (sign, s1) :=
    match s with
    | '-' :: r => (['-'], r)
    | _ => (([] : GoStr), s)
  match s1 with
  | [] => none
  | c :: r =>
    if ¬ c.isDigit then none
    else
      let (intPart, rest1) :=
        if c = '0' then ([c], r)
        else
          let (ds, r2) := r.span Char.isDigit
          (c :: ds, r2)
      let fracStep : Option (GoStr × GoStr) :=
        match rest1 with
        | '.' :: r2 =>
          let (ds, r3) := r2.span Char.isDigit
          if ds = [] then none else some ('.' :: ds, r3)
        | _ => some ([], rest1)
      match fracStep with
      | none => none
      | some (fracPart, rest2) =>
        let expStep : Option (GoStr × GoStr) :=
          match rest2 with
          | e :: r3 =>
            if e = 'e' ∨ e = 'E' then
              let (signE, r4) :=
                match r3 with
                | '+' :: r5 => (['+'], r5)
                | '-' :: r5 => (['-'], r5)
                | _ => (([] : GoStr), r3)
              let (ds, r5) := r4.span Char.isDigit
              if ds = [] then none else some (e :: signE ++ ds, r5)
            else some ([], rest2)
          | [] => some ([], rest2)
        match expStep with
        | none => none
        | some (expPart, rest3) =>
          some (sign ++ intPart ++ fracPart ++ expPart, rest3)

/-- Insert a parsed object member; a repeated key keeps the later value, as
assignment into a Go map does. -/
def insertMember (k : GoStr) (v : Json) (fs : List (GoStr × Json)) :
    List (GoStr × Json) :=
  if fs.any (fun p => p.1 == k) then fs else (k, v) :: fs

mutual

/-- Parse one JSON value; fuel bounds the recursion depth (one unit of fuel
is spent only after at least one character of input is consumed, so
`length + 1` fuel always suffices). -/
def parseValue : Nat → GoStr → Option (Json × GoStr)
  | 0, _ => none
  | fuel + 1, s =>
    match skipWs s with
    | [] => none
    | '"' :: rest =>
      match parseStringBody fuel rest with
      | some (t, r) => some (Json.str t, r)
      | none => none
    | '{' :: rest =>
      (match skipWs rest with
       | '}' :: r => some (Json.obj [], r)
       | other =>
         match parseMembers fuel other with
         | some (fs, r) => some (Json.obj fs, r)
         | none => none)
    | '[' :: rest =>
      (match skipWs rest with
       | ']' :: r => some (Json.arr [], r)
       | other =>
         match parseItems fuel other with
         | some (xs, r) => some (Json.arr xs, r)
         | none => none)
    | 't' :: rest =>
      if rest.take 3 = ['r', 'u', 'e'] then some (Json.bool true, rest.drop 3)
      else none
    | 'f' :: rest =>
      if rest.take 4 = ['a', 'l', 's', 'e'] then some (Json.bool false, rest.drop 4)
      else none
    | 'n' :: rest =>
      if rest.take 3 = ['u', 'l', 'l'] then some (Json.null, rest.drop 3)
      else none
    | other =>
      match parseNumberText other with
      | some (t, r) => some (Json.num t, r)
      | none => none

/-- Parse the members of a JSON object after its opening brace (at least one
member; the empty object is handled by the caller). -/
def parseMembers : Nat → GoStr → Option (List (GoStr × Json) × GoStr)
  | 0, _ => none
  | fuel + 1, s =>
    match skipWs s with
    | '"' :: rest =>
      (match parseStringBody fuel rest with
       | some (k, r1) =>
         match skipWs r1 with
         | ':' :: r2 =>
           (match parseValue fuel r2 with
            | some (v, r3) =>
              (match skipWs r3 with
               | ',' :: r4 =>
                 (match parseMembers fuel r4 with
                  | some (fs, r5) => some (insertMember k v fs, r5)
                  | none => none)
               | '}' :: r4 => some ([(k, v)], r4)
               | _ => none)
            | none => none)
         | _ => none
       | none => none)
    | _ => none

/-- Parse the items of a JSON array after its opening bracket (at least one
item; the empty array is handled by the caller). -/
def parseItems : Nat → GoStr → Option (List Json × GoStr)
  | 0, _ => none
  | fuel + 1, s =>
    match parseValue fuel s with
    | some (v, r1) =>
      (match skipWs r1 with
       | ',' :: r2 =>
         (match parseItems fuel r2 with
          | some (xs, r3) => some (v :: xs, r3)
          | none => none)
       | ']' :: r2 => some ([v], r2)
       | _ => none)
    | none => none

end

/-- Model of `json.Unmarshal` into `interface\x7b\x7d`: the whole input must be
one JSON value with only trailing whitespace. -/
def parseJson (s : GoStr) : Option Json :=
  match parseValue (s.length + 1) s with
  | some (v, rest) => if skipWs rest = [] then some v else none
  | none => none

/-! ### Compact serialization (model of `json.Marshal`)

Object keys are emitted in ascending byte order, as Go marshals a map.
HTML-escaping of `<`, `>`, `&` and `\uXXXX` escapes for control characters
are not modelled (no claim serializes such a value). -/

/-- Byte-order comparison of strings (UTF-8 byte order coincides with code
point order). -/
def strLtB : GoStr → GoStr → Bool
  | [], [] => false
  | [], _ :: _ => true
  | _ :: _, [] => false
  | a :: as, b :: bs =>
    if a.toNat < b.toNat then true
    else if b.toNat < a.toNat then false
    else strLtB as bs

/-- Insert a field into a key-sorted field list. -/
def insertSorted (kv : GoStr × Json) : List (GoStr × Json) → List (GoStr × Json)
  | [] => [kv]
  | p :: rest =>
    if strLtB kv.1 p.1 then kv :: p :: rest else p :: insertSorted kv rest

/-- Sort an object's fields by key, as `json.Marshal` does for a map. -/
def sortFields (fs : List (GoStr × Json)) : List (GoStr × Json) :=
  fs.foldr insertSorted []

/-- Escape one character of a JSON string literal. -/
def escapeJsonChar (c : Char) : GoStr :=
  if c = '"' then ['\\', '"']
  else if c = '\\' then ['\\', '\\']
  else if c = '\n' then ['\\', 'n']
  else if c = '\t' then ['\\', 't']
  else if c = '\r' then ['\\', 'r']
  else [c]

/-- Join already-serialized pieces with commas. -/
def joinComma : List GoStr → GoStr
  | [] => []
  | [x] => x
  | x :: xs => x ++ ',' :: joinComma xs

mutual

/-- Size of a document, used to bound the serializer's fuel. -/
def jsonSize : Json → Nat
  | Json.null => 1
  | Json.bool _ => 1
  | Json.num _ => 1
  | Json.str _ => 1
  | Json.arr xs => 1 + jsonListSize xs
  | Json.obj fs => 1 + jsonFieldsSize fs

/-- Size of a list of documents. -/
def jsonListSize : List Json → Nat
  | [] => 0
  | x :: xs => jsonSize x + jsonListSize xs

/-- Size of an object's field list. -/
def jsonFieldsSize : List (GoStr × Json) → Nat
  | [] => 0
  | (_, v) :: fs => jsonSize v + jsonFieldsSize fs

end

/-- Compact serialization with fuel bounding the nesting depth (`jsonSize`
exceeds the depth of every value, so `compact` is total on reachable
inputs). -/
def compactF : Nat → Json → GoStr
  | 0, _ => []
  | fuel + 1, j =>
    match j with
    | Json.null => ['n', 'u', 'l', 'l']
    | Json.bool true => ['t', 'r', 'u', 'e']
    | Json.bool false => ['f', 'a', 'l', 's', 'e']
    | Json.num t => t
    | Json.str s => '"' :: (s.flatMap escapeJsonChar) ++ ['"']
    | Json.arr xs => '[' :: joinComma (xs.map (compactF fuel)) ++ [']']
    | Json.obj fs =>
      '{' :: joinComma ((sortFields fs).map fun kv =>
        '"' :: (kv.1.flatMap escapeJsonChar) ++ '"' :: ':' :: compactF fuel kv.2)
        ++ ['}']

/-- Model of `json.Marshal` to its compact text. -/
def compact (j : Json) : GoStr := compactF (jsonSize j) j

/-! ### The jsonpath library (model of `PaesslerAG/jsonpath.Get`)

Only the `$`-rooted dot/bracket grammar that the evaluator emits is given a
meaning; every other path is a parse error, matching the library's
behaviour of returning a non-"unknown key" error for text it cannot parse
(pinned by the repository's `invalid.jsonpath[expression` tests). -/

/-- One step of a parsed json path. -/
inductive JPSeg where
  | field (name : GoStr)
  | index (i : Nat)

/-- Why `jsonpath.Get` failed.  Only `unknownKey` renders with the substring
"unknown key" (and no modelled error renders with "not found"), so the Go
checks `strings.Contains(err.Error(), "unknown key")` and
`... || strings.Contains(err.Error(), "not found")` both hold exactly on
`unknownKey`. -/
inductive JPErr where
  | parseErr (path : GoStr)
  | unknownKey (k : GoStr)
  | typeMismatch
  | outOfRange

/-- Whether the error's text contains "unknown key" (equivalently, for the
modelled errors, "unknown key" or "not found"): the class the evaluator
converts into a silent empty result. -/
def JPErr.isUnknownKey : JPErr → Bool
  | JPErr.unknownKey _ => true
  | _ => false

/-- Read characters up to (and consuming) the terminator `q`; fails when
the input ends first. -/
def readUntil (q : Char) : GoStr → Option (GoStr × GoStr)
  | [] => none
  | c :: rest =>
    if c = q then some ([], rest)
    else
      match readUntil q rest with
      | some (k, r) => some (c :: k, r)
      | none => none

/-- Read a dot-segment identifier: everything up to the next `.` or `[`. -/
def readIdent : GoStr → GoStr × GoStr
  | [] => ([], [])
  | c :: rest =>
    if c = '.' ∨ c = '[' then ([], c :: rest)
    else
      let (i, r) := readIdent rest
      (c :: i, r)

/-- Read one `.ident` / `["key"]` / `['key']` / `[digits]` segment chain. -/
def parseSegs : Nat → GoStr → Option (List JPSeg)
  | 0, _ => none
  | fuel + 1, s =>
    match s with
    | [] => some []
    | '.' :: rest =>
      let (ident, rest2) := readIdent rest
      if ident = [] then none
      else
        match parseSegs fuel rest2 with
        | some segs => some (JPSeg.field ident :: segs)
        | none => none
    | '[' :: '"' :: rest =>
      (match readUntil '"' rest with
       | some (key, ']' :: rest2) =>
         (match parseSegs fuel rest2 with
          | some segs => some (JPSeg.field key :: segs)
          | none => none)
       | _ => none)
    | '[' :: '\'' :: rest =>
      (match readUntil '\'' rest with
       | some (key, ']' :: rest2) =>
         (match parseSegs fuel rest2 with
          | some segs => some (JPSeg.field key :: segs)
          | none => none)
       | _ => none)
    | '[' :: rest =>
      let ds := rest.takeWhile Char.isDigit
      (match rest.dropWhile Char.isDigit with
       | ']' :: rest2 =>
         if ds = [] then none
         else
           match parseSegs fuel rest2 with
           | some segs =>
             some (JPSeg.index (ds.foldl (fun n c => 10 * n + (c.toNat - 48)) 0) :: segs)
           | none => none
       | _ => none)
    | _ => none

/-- Parse a whole json path. -/
def parseJsonPath (path : GoStr) : Option (List JPSeg) :=
  match path with
  | '$' :: rest => parseSegs (path.length + 1) rest
  | _ => none

/-- Structural descent of a parsed path through a document. -/
def descend : List JPSeg → Json → Except JPErr Json
  | [], j => Except.ok j
  | JPSeg.field k :: rest, j =>
    (match j with
     | Json.obj fs =>
       (match lookupField fs k with
        | some v => descend rest v
        | none => Except.error (JPErr.unknownKey k))
     | _ => Except.error JPErr.typeMismatch)
  | JPSeg.index i :: rest, j =>
    (match j with
     | Json.arr xs =>
       (match xs.get? i with
        | some v => descend rest v
        | none => Except.error JPErr.outOfRange)
     | _ => Except.error JPErr.typeMismatch)

/-- Model of `jsonpath.Get path data`. -/
def jsonpathGet (path : GoStr) (data : Json) : Except JPErr Json :=
  match parseJsonPath path with
  | none => Except.error (JPErr.parseErr path)
  | some segs => descend segs data

/-! ### Request context and header configuration
(`internal/config/request_evaluator.go`, `internal/config/config.go`) -/

/-- Go `RequestContext`: the normalized view of an inbound request.  The
`RawData` member is always nil at every call site and is not modelled. -/
structure RequestContext where
  headers : List (GoStr × GoStr)
  query : List (GoStr × GoStr)
  form : List (GoStr × GoStr)
  body : Option Json
  method : GoStr
  path : GoStr

/-- Go `HeaderConfig`: one forwarding directive. -/
structure HeaderConfig where
  name : GoStr
  value : GoStr
  valueFrom : GoStr

/-- Go `HeaderItem`: wrapper element of a `HeadersConfig` list. -/
structure HeaderItem where
  header : HeaderConfig

/-- Go `HeadersConfig`. -/
abbrev HeadersConfig := List HeaderItem

/-- Assignment into a Go `map[string]string`: overwrite an existing binding
or append a new one. -/
def mapSet (m : List (GoStr × GoStr)) (k v : GoStr) : List (GoStr × GoStr) :=
  if m.any fun p => p.1 == k then
    m.map fun p => if p.1 == k then (k, v) else p
  else m ++ [(k, v)]

/-- Lookup in a Go `map[string]string`. -/
def mapGet (m : List (GoStr × GoStr)) (k : GoStr) : Option GoStr :=
  (m.find? fun p => p.1 == k).map Prod.snd

/-- A string map as a JSON object (the image of `map[string]string` under
`json.Marshal` / `json.Unmarshal`, which the evaluator then descends). -/
def mapToJson (m : List (GoStr × GoStr)) : Json :=
  Json.obj (m.map fun p => (p.1, Json.str p.2))

/-- The context marshalled to JSON and unmarshalled to `interface\x7b\x7d`
(struct fields in declaration order, `body` present only when non-nil). -/
def RequestContext.toJson (ctx : RequestContext) : Json :=
  Json.obj
    ([(['h', 'e', 'a', 'd', 'e', 'r', 's'], mapToJson ctx.headers),
      (['q', 'u', 'e', 'r', 'y'], mapToJson ctx.query),
      (['f', 'o', 'r', 'm'], mapToJson ctx.form)]
     ++ (match ctx.body with
         | some b => [(['b', 'o', 'd', 'y'], b)]
         | none => [])
     ++ [(['m', 'e', 't', 'h', 'o', 'd'], Json.str ctx.method),
         (['p', 'a', 't', 'h'], Json.str ctx.path)])

/-! ### Expression-to-jsonpath conversion (`RequestEvaluator`) -/

/-- Strip the optional leading `request.` token (the Go guard is strictly
`len(expression) > 8`). -/
def stripRequestDot (expression : GoStr) : GoStr :=
  if 8 < expression.length ∧ expression.take 8 = "request.".data then
    expression.drop 8
  else expression

/-- Go `RequestEvaluator.convertHeaderExpression`: bracketed key, trimmed of
quotes and lower-cased, becomes `$.headers["key"]`, with a dot-led remainder
appended verbatim. -/
def convertHeaderExpression (expression : GoStr) : GoStr :=
  match goIndexOf expression '[' with
  | none => expression
  | some openB =>
    match goIndexOfFrom expression ']' (openB + 1) with
    | none => expression
    | some closeB =>
      let key := trimQuotes (goSlice expression (openB + 1) closeB)
      let remaining := expression.drop (closeB + 1)
      let jsonPath := "$.headers[\"".data ++ golower key ++ "\"]".data
      match remaining with
      | '.' :: _ => jsonPath ++ remaining
      | _ => jsonPath

/-- Go `RequestEvaluator.convertQueryExpression` (no case folding). -/
def convertQueryExpression (expression : GoStr) : GoStr :=
  match goIndexOf expression '[' with
  | none => expression
  | some openB =>
    match goIndexOfFrom expression ']' (openB + 1) with
    | none => expression
    | some closeB =>
      let key := trimQuotes (goSlice expression (openB + 1) closeB)
      let remaining := expression.drop (closeB + 1)
      let jsonPath := "$.query[\"".data ++ key ++ "\"]".data
      match remaining with
      | '.' :: _ => jsonPath ++ remaining
      | _ => jsonPath

/-- Go `RequestEvaluator.convertFormExpression` (no case folding). -/
def convertFormExpression (expression : GoStr) : GoStr :=
  match goIndexOf expression '[' with
  | none => expression
  | some openB =>
    match goIndexOfFrom expression ']' (openB + 1) with
    | none => expression
    | some closeB =>
      let key := trimQuotes (goSlice expression (openB + 1) closeB)
      let remaining := expression.drop (closeB + 1)
      let jsonPath := "$.form[\"".data ++ key ++ "\"]".data
      match remaining with
      | '.' :: _ => jsonPath ++ remaining
      | _ => jsonPath

/-- Go `RequestEvaluator.convertBodyExpression`. -/
def convertBodyExpression (expression : GoStr) : GoStr :=
  "$.body.".data ++ expression.drop 5

/-- Go `RequestEvaluator.convertExpressionToJSONPath`: dispatch on the
source keyword; anything unrecognized passes through as a raw path. -/
def convertExpressionToJSONPath (expression : GoStr) : GoStr :=
  let e := stripRequestDot expression
  if List.isPrefixOf "headers[".data e then convertHeaderExpression e
  else if List.isPrefixOf "query[".data e then convertQueryExpression e
  else if List.isPrefixOf "form[".data e then convertFormExpression e
  else if List.isPrefixOf "body.".data e then convertBodyExpression e
  else e

/-- Go `RequestEvaluator.hasNestedPath`: a `]` followed immediately by `.`. -/
def hasNestedPath (expression : GoStr) : Bool :=
  match goIndexOf expression ']' with
  | none => false
  | some closeB =>
    match expression.drop (closeB + 1) with
    | '.' :: _ => true
    | _ => false

/-- Go `RequestEvaluator.extractNestedPath`: everything after the first `]`
when non-empty. -/
def extractNestedPath (expression : GoStr) : GoStr :=
  match goIndexOf expression ']' with
  | none => []
  | some keyEnd =>
    if keyEnd + 1 < expression.length then expression.drop (keyEnd + 1) else []

/-- Go `RequestEvaluator.extractBasePath`: the expression up to and
including the first `]`, converted to a jsonpath. -/
def extractBasePath (expression : GoStr) : GoStr :=
  match goIndexOf expression ']' with
  | none => convertExpressionToJSONPath expression
  | some closeB => convertExpressionToJSONPath (expression.take (closeB + 1))

/-- Go `RequestEvaluator.isJSONString`: `json.Unmarshal` into a
`RawMessage` succeeds exactly when the text is one valid JSON value. -/
def isJSONString (s : GoStr) : Bool := (parseJson s).isSome

/-! ### Evaluation (`RequestEvaluator`) -/

/-- Evaluator failures.  The constructors mirror the `fmt.Errorf` skeletons
of the Go code; the exact rendered text is not modelled (no claim inspects
it). -/
inductive EvalErr where
  | jsonPathEval (expression : GoStr) (e : JPErr)
  | basePathEval (basePath : GoStr) (e : JPErr)
  | jsonParse (s : GoStr)
  | nestedEval (e : JPErr)
  | headerEval (name : GoStr) (e : EvalErr)

/-- String coercion of a jsonpath result (the shared `switch` of the Go
code): a string verbatim, nil as the empty string, anything else via
`json.Marshal`. -/
def coerceResult (v : Json) : GoStr :=
  match v with
  | Json.str s => s
  | Json.null => []
  | other => compact other

/-- Go `RequestEvaluator.extractFromJSONString`: parse the string as JSON
and apply the expression's nested path; a missing key is a silent empty
result. -/
def extractFromJSONString (jsonStr originalExpression : GoStr) :
    Except EvalErr GoStr :=
  match parseJson jsonStr with
  | none => Except.error (EvalErr.jsonParse jsonStr)
  | some jsonData =>
    let nestedPath := extractNestedPath originalExpression
    if nestedPath = [] then Except.ok jsonStr
    else
      match jsonpathGet ('$' :: nestedPath) jsonData with
      | Except.error e =>
        if e.isUnknownKey then Except.ok [] else Except.error (EvalErr.nestedEval e)
      | Except.ok v => Except.ok (coerceResult v)

/-- Go `RequestEvaluator.evaluateNestedExpression`: fetch the base value; a
string that is itself JSON is descended via the nested path, any other
string is returned as-is, and a non-string base is marshalled (note there
is no nil-to-empty case here: a null base marshals to `null`). -/
def evaluateNestedExpression (expression : GoStr) (contextData : Json) :
    Except EvalErr GoStr :=
  let basePath := extractBasePath expression
  match jsonpathGet basePath contextData with
  | Except.error e =>
    if e.isUnknownKey then Except.ok []
    else Except.error (EvalErr.basePathEval basePath e)
  | Except.ok result =>
    match result with
    | Json.str s =>
      if isJSONString s then extractFromJSONString s expression else Except.ok s
    | other => Except.ok (compact other)

/-- Go `RequestEvaluator.evaluateValueFrom`: convert the expression,
marshal the context (which cannot fail), and either take the nested route
or evaluate the converted path directly; a missing key is a silent empty
result. -/
def evaluateValueFrom (expression : GoStr) (ctx : RequestContext) :
    Except EvalErr GoStr :=
  let jsonPathExpr := convertExpressionToJSONPath expression
  let contextData := ctx.toJson
  if hasNestedPath expression then
    evaluateNestedExpression expression contextData
  else
    match jsonpathGet jsonPathExpr contextData with
    | Except.error e =>
      if e.isUnknownKey then Except.ok []
      else Except.error (EvalErr.jsonPathEval expression e)
    | Except.ok v => Except.ok (coerceResult v)

/-- Loop body of `RequestEvaluator.EvaluateHeaders`, with the result map
threaded explicitly. -/
def evaluateHeadersAux (ctx : RequestContext) :
    HeadersConfig → List (GoStr × GoStr) → Except EvalErr (List (GoStr × GoStr))
  | [], acc => Except.ok acc
  | item :: rest, acc =>
    if item.header.value ≠ [] then
      evaluateHeadersAux ctx rest (mapSet acc item.header.name item.header.value)
    else if item.header.valueFrom ≠ [] then
      match evaluateValueFrom item.header.valueFrom ctx with
      | Except.error e => Except.error (EvalErr.headerEval item.header.name e)
      | Except.ok v =>
        if v ≠ [] then evaluateHeadersAux ctx rest (mapSet acc item.header.name v)
        else evaluateHeadersAux ctx rest acc
    else evaluateHeadersAux ctx rest acc

/-- Go `RequestEvaluator.EvaluateHeaders`: literal directives copy through,
expression directives are evaluated, an empty resolution is omitted, and
the first evaluator error aborts the whole batch (the Go function returns
`nil` for the map in that case, which the `Except.error` branch models). -/
def EvaluateHeaders (headers : HeadersConfig) (ctx : RequestContext) :
    Except EvalErr (List (GoStr × GoStr)) :=
  evaluateHeadersAux ctx headers []

/-! ### Context builders -/

/-- Go `NewRequestContextFromHTTP`: header names are lower-cased and only
the first value of each multi-valued entry is retained; query and form keys
are kept verbatim, also first-value-only. -/
def NewRequestContextFromHTTP
    (headers query form : List (GoStr × List GoStr)) (method path : GoStr) :
    RequestContext :=
  { headers := headers.foldl (fun m p =>
      match p.2 with
      | [] => m
      | v :: _ => mapSet m (golower p.1) v) []
    query := query.foldl (fun m p =>
      match p.2 with
      | [] => m
      | v :: _ => mapSet m p.1 v) []
    form := form.foldl (fun m p =>
      match p.2 with
      | [] => m
      | v :: _ => mapSet m p.1 v) []
    body := none
    method := method
    path := path }

/-- Go `NewRequestContextFromMap` (the testing constructor): header names
lower-cased, query and form copied verbatim. -/
def NewRequestContextFromMap
    (headers query form : List (GoStr × GoStr)) (method path : GoStr) :
    RequestContext :=
  { headers := headers.foldl (fun m p => mapSet m (golower p.1) p.2) []
    query := query.foldl (fun m p => mapSet m p.1 p.2) []
    form := form.foldl (fun m p => mapSet m p.1 p.2) []
    body := none
    method := method
    path := path }

/-! ### JSON-RPC protocol engine (`pkg/mcp`, server part of
`internal/openapi/parser.go`'s concatenation) -/

/-- Standard JSON-RPC 2.0 code `ErrorCodeInvalidRequest`. -/
def ErrorCodeInvalidRequest : Int := -32600

/-- Standard JSON-RPC 2.0 code `ErrorCodeMethodNotFound`. -/
def ErrorCodeMethodNotFound : Int := -32601

/-- Standard JSON-RPC 2.0 code `ErrorCodeInvalidParams`. -/
def ErrorCodeInvalidParams : Int := -32602

/-- Standard JSON-RPC 2.0 code `ErrorCodeInternalError`. -/
def ErrorCodeInternalError : Int := -32603

/-- Application code `ErrorCodeToolNotFound` from the resource-not-found
band (-1300 to -1399); declared by the Go sources but referenced by no
handler. -/
def ErrorCodeToolNotFound : Int := -1302

/-- Tool-execution band: generic failure. -/
def ErrorCodeToolExecutionFailed : Int := -4000

/-- Tool-execution band: network error. -/
def ErrorCodeToolNetworkError : Int := -4001

/-- Tool-execution band: timeout. -/
def ErrorCodeToolTimeoutError : Int := -4002

/-- Tool-execution band: authentication / authorization failure. -/
def ErrorCodeToolAuthenticationError : Int := -4003

/-- Tool-execution band: request validation failure. -/
def ErrorCodeToolValidationError : Int := -4004

/-- Tool-execution band: serialization failure. -/
def ErrorCodeToolSerializationError : Int := -4005

/-- Tool-execution band: invalid or missing parameters. -/
def ErrorCodeToolParameterError : Int := -4006

/-- Go `types.MCPError`. -/
structure MCPError where
  code : Int
  message : GoStr
  data : Option Json

/-- Go `types.MCPRequest`; `params` is the raw `json.RawMessage`
(`none` when the member was absent). -/
structure MCPRequest where
  jsonrpc : GoStr
  id : Json
  method : GoStr
  params : Option Json

/-- Go `types.MCPResponse`. -/
structure MCPResponse where
  jsonrpc : GoStr
  id : Json
  result : Option Json
  error : Option MCPError

/-- Go `mcp.ToolHandler`: arguments in, result or error text out.  The Go
handler may also perform I/O; only its input/output behaviour is
modelled. -/
def ToolHandler : Type := Json → Except GoStr Json

/-- Go `mcp.ToolSchema`. -/
structure ToolSchema where
  name : GoStr
  description : GoStr
  inputSchema : Json

/-- Go `mcp.Server`: registry of handlers and schemas. -/
structure Server where
  tools : List (GoStr × ToolHandler)
  schemas : List (GoStr × ToolSchema)

/-- The classification chain of Go `categorizeToolError`, over the already
lower-cased failure text `errLower`. -/
def categorizeToolErrorLower (errLower : GoStr) : Int × GoStr :=
  if goContains errLower "timeout".data ∨ goContains errLower "deadline exceeded".data then
    (ErrorCodeToolTimeoutError, "Tool execution timed out".data)
  else if goContains errLower "connection refused".data ∨ goContains errLower "no such host".data
      ∨ goContains errLower "network is unreachable".data
      ∨ goContains errLower "connection reset".data then
    (ErrorCodeToolNetworkError, "Network error during tool execution".data)
  else if goContains errLower "unauthorized".data ∨ goContains errLower "authentication failed".data
      ∨ goContains errLower "invalid credentials".data ∨ goContains errLower "token expired".data
      ∨ goContains errLower "forbidden".data ∨ goContains errLower "access denied".data then
    (ErrorCodeToolAuthenticationError, "Authentication failed during tool execution".data)
  else if (goContains errLower "required".data ∧ goContains errLower "not provided".data)
      ∨ goContains errLower "invalid parameter".data
      ∨ goContains errLower "validation failed".data
      ∨ goContains errLower "invalid format".data
      ∨ goContains errLower "missing required field".data then
    (ErrorCodeToolParameterError, "Invalid or missing parameters for tool execution".data)
  else if goContains errLower "marshal".data ∨ goContains errLower "unmarshal".data
      ∨ goContains errLower "json".data ∨ goContains errLower "serialization".data then
    (ErrorCodeToolSerializationError, "Data serialization error during tool execution".data)
  else if goContains errLower "status 400".data ∨ goContains errLower "bad request".data then
    (ErrorCodeToolValidationError, "Invalid request parameters".data)
  else if goContains errLower "status 401".data then
    (ErrorCodeToolAuthenticationError, "Authentication required".data)
  else if goContains errLower "status 403".data then
    (ErrorCodeToolAuthenticationError, "Access forbidden".data)
  else if goContains errLower "status 404".data then
    (ErrorCodeToolValidationError, "Resource not found".data)
  else if goContains errLower "status 422".data then
    (ErrorCodeToolValidationError, "Request validation failed".data)
  else if goContains errLower "status 429".data then
    (ErrorCodeToolValidationError, "Rate limit exceeded".data)
  else if goContains errLower "status 5".data then
    (ErrorCodeToolExecutionFailed, "Server error during tool execution".data)
  else
    (ErrorCodeToolExecutionFailed, "Tool execution failed".data)

/-- Go `categorizeToolError`, called on the error branch (so the `err ==
nil` guard of the Go function is unreachable and not modelled): classify a
failure by inspecting its lower-cased text. -/
def categorizeToolError (errStr : GoStr) : Int × GoStr :=
  categorizeToolErrorLower (golower errStr)

/-- Go `types.CallToolParams`. -/
structure CallToolParams where
  name : GoStr
  arguments : Json

/-- Model of `json.Unmarshal(req.Params, &params)` for `CallToolParams`: an
absent raw message fails; JSON null is a no-op leaving the zero value; an
object reads `name` (string, defaulting empty) and `arguments`
(object-or-null, defaulting null); any other shape is a type error. -/
def decodeCallToolParams (params : Option Json) : Option CallToolParams :=
  match params with
  | none => none
  | some Json.null => some { name := [], arguments := Json.null }
  | some (Json.obj fields) =>
    let nameRes : Option GoStr :=
      match lookupField fields "name".data with
      | none => some []
      | some Json.null => some []
      | some (Json.str s) => some s
      | some _ => none
    let argsRes : Option Json :=
      match lookupField fields "arguments".data with
      | none => some Json.null
      | some Json.null => some Json.null
      | some (Json.obj o) => some (Json.obj o)
      | some _ => none
    match nameRes, argsRes with
    | some n, some a => some { name := n, arguments := a }
    | _, _ => none
  | some _ => none

/-- The `initialize` result object. -/
def initializeResult : Json :=
  Json.obj
    [("protocolVersion".data, Json.str "2024-11-05".data),
     ("capabilities".data, Json.obj [("tools".data, Json.obj [])]),
     ("serverInfo".data,
      Json.obj [("name".data, Json.str "mcpify".data),
                ("version".data, Json.str "1.0.0".data)])]

/-- The `tools/list` result: the registry as name/description/schema
triples (the Go map iteration order is arbitrary; the registration order
stands in for it). -/
def toolsListResult (s : Server) : Json :=
  Json.obj
    [("tools".data,
      Json.arr (s.schemas.map fun p =>
        Json.obj
          [("name".data, Json.str p.2.name),
           ("description".data, Json.str p.2.description),
           ("inputSchema".data, p.2.inputSchema)]))]

/-- Wrap a handler result as a single text content block holding its JSON
serialization. -/
def callToolResult (result : Json) : Json :=
  Json.obj
    [("content".data,
      Json.arr [Json.obj [("type".data, Json.str "text".data),
                          ("text".data, Json.str (compact result))]])]

/-- Go `Server.HandleRequest`: the transport-agnostic JSON-RPC dispatcher.
Logging calls are side effects outside the model. -/
def HandleRequest (s : Server) (req : MCPRequest) : MCPResponse :=
  let base : MCPResponse :=
    { jsonrpc := "2.0".data, id := req.id, result := none, error := none }
  if req.method = "initialize".data then
    { base with result := some initializeResult }
  else if req.method = "tools/list".data then
    { base with result := some (toolsListResult s) }
  else if req.method = "notifications/initialized".data then
    { base with result := some (Json.obj []) }
  else if req.method = "tools/call".data then
    match decodeCallToolParams req.params with
    | none =>
      { base with error := some (
          { code := ErrorCodeInvalidParams
            message := "Invalid parameters".data
            data := some (Json.str "unmarshal error".data) : MCPError }) }
    | some params =>
      match s.tools.find? fun p => p.1 == params.name with
      | none =>
        { base with error := some (
            { code := ErrorCodeMethodNotFound
              message := "Tool not found".data
              data := some (Json.str params.name) : MCPError }) }
      | some handler =>
        match handler.2 params.arguments with
        | Except.error err =>
          let c := categorizeToolError err
          { base with error := some (
              { code := c.1, message := c.2, data := some (Json.str err) : MCPError }) }
        | Except.ok result =>
          { base with result := some (callToolResult result) }
  else
    { base with error := some (
        { code := ErrorCodeMethodNotFound
          message := "Method not found".data
          data := some (Json.str req.method) : MCPError }) }

/-! ### Stdio transport (`StdioTransport.Start`)

The blocking scanner loop is modelled as a pure function over the list of
input lines; one response is emitted per non-empty line. -/

/-- Model of `json.Unmarshal(line, &req)` for `MCPRequest`: the line must
be one JSON object; `jsonrpc` and `method` must be strings when present
(null is a no-op), `id` takes any value, and `params` keeps its raw
message. -/
def decodeMCPRequest (line : GoStr) : Option MCPRequest :=
  match parseJson line with
  | some (Json.obj fields) =>
    let jsonrpcRes : Option GoStr :=
      match lookupField fields "jsonrpc".data with
      | none => some []
      | some Json.null => some []
      | some (Json.str s) => some s
      | some _ => none
    let methodRes : Option GoStr :=
      match lookupField fields "method".data with
      | none => some []
      | some Json.null => some []
      | some (Json.str s) => some s
      | some _ => none
    (match jsonrpcRes, methodRes with
     | some j, some m =>
       some { jsonrpc := j
              id := (lookupField fields "id".data).getD Json.null
              method := m
              params := lookupField fields "params".data }
     | _, _ => none)
  | _ => none

/-- The best-effort id salvage of the stdio loop: re-unmarshal the raw line
into a generic map and echo its `id` member when that succeeds, else leave
the id null. -/
def salvageId (line : GoStr) : Json :=
  match parseJson line with
  | some (Json.obj fields) =>
    (match lookupField fields "id".data with
     | some v => v
     | none => Json.null)
  | _ => Json.null

/-- The parse-error response the stdio loop writes for an undecodable line
(code `ErrorCodeInvalidRequest`, message `Parse error`; the data member
carries the unmarshal error's text, which is not modelled verbatim). -/
def parseErrorResponse (line : GoStr) : MCPResponse :=
  { jsonrpc := "2.0".data
    id := salvageId line
    result := none
    error := some (
      { code := ErrorCodeInvalidRequest
        message := "Parse error".data
        data := some (Json.str "unmarshal error".data) : MCPError }) }

/-- One iteration of the stdio scanner loop: an empty line is skipped, an
undecodable line yields the salvaged parse-error response, and anything
else is dispatched through the engine. -/
def processLine (s : Server) (line : GoStr) : Option MCPResponse :=
  if line = [] then none
  else
    match decodeMCPRequest line with
    | some req => some (HandleRequest s req)
    | none => some (parseErrorResponse line)

/-- Go `StdioTransport.Start`, as the list of responses written for a list
of input lines. -/
def runStdio (s : Server) : List GoStr → List MCPResponse
  | [] => []
  | line :: rest =>
    match processLine s line with
    | some resp => resp :: runStdio s rest
    | none => runStdio s rest

/-! ### Backend call header forwarding (`internal/handlers/api.go`, the
evaluator-aware version concatenated into
`internal/config/request_evaluator_test.go`) -/

/-- Go `config.AuthConfig` (the `HeadersConfig`-typed variant the handlers
use). -/
structure AuthConfig where
  type : GoStr
  token : GoStr
  username : GoStr
  password : GoStr
  apiKey : GoStr
  apiKeyName : GoStr
  apiKeyIn : GoStr
  headers : HeadersConfig

/-- The slice of `config.OpenAPIConfig` that the header-forwarding phase of
`APIHandler` reads. -/
structure OpenAPIConfigSlice where
  auth : AuthConfig
  headers : HeadersConfig

/-- The scheme-specific header set by the `switch` at the top of
`APIHandler.addAuthHeaders` (basic auth's `SetBasicAuth` header is
abstracted to its credential pair). -/
def schemeAuthHeaders (auth : AuthConfig) (reqHeaders : List (GoStr × GoStr)) :
    List (GoStr × GoStr) :=
  if auth.type = "bearer".data then
    if auth.token ≠ [] then
      mapSet reqHeaders "Authorization".data ("Bearer ".data ++ auth.token)
    else reqHeaders
  else if auth.type = "basic".data then
    if auth.username ≠ [] ∧ auth.password ≠ [] then
      mapSet reqHeaders "Authorization".data
        ("Basic ".data ++ auth.username ++ ':' :: auth.password)
    else reqHeaders
  else if auth.type = "api_key".data then
    if auth.apiKey ≠ [] ∧ auth.apiKeyName ≠ [] ∧ auth.apiKeyIn = "header".data then
      mapSet reqHeaders auth.apiKeyName auth.apiKey
    else reqHeaders
  else reqHeaders

/-- Go `APIHandler.addAuthHeaders`: scheme headers, then the evaluated
custom auth headers; an evaluator failure is logged and the request
proceeds without those headers. -/
def addAuthHeaders (cfg : OpenAPIConfigSlice) (ctx : RequestContext)
    (reqHeaders : List (GoStr × GoStr)) : List (GoStr × GoStr) :=
  let h1 := schemeAuthHeaders cfg.auth reqHeaders
  match EvaluateHeaders cfg.auth.headers ctx with
  | Except.error _ => h1
  | Except.ok m => m.foldl (fun acc p => mapSet acc p.1 p.2) h1

/-- The header-forwarding phase of Go `APIHandler.HandleAPICall`: auth
headers first (non-fatal on evaluator failure), then the general
`config.Headers` directives, whose evaluator failure fails the call. -/
def handleAPICallHeaders (cfg : OpenAPIConfigSlice) (ctx : RequestContext)
    (reqHeaders : List (GoStr × GoStr)) :
    Except EvalErr (List (GoStr × GoStr)) :=
  let h1 := addAuthHeaders cfg ctx reqHeaders
  match EvaluateHeaders cfg.headers ctx with
  | Except.error e => Except.error e
  | Except.ok m => Except.ok (m.foldl (fun acc p => mapSet acc p.1 p.2) h1)

/-! ## Concrete fixtures used by the theorems below -/

/-- The JSON text the round-trip scenario binds to header `x`. -/
def c4ProviderDoc : GoStr :=
  "\x7b\"apikey\":\"sk-1234567890\",\"auth\":\x7b\"api_key\":\"key-abc123\"\x7d\x7d".data

/-- A context whose headers map binds `x` to the round-trip JSON text. -/
def c4Context : RequestContext :=
  { headers := [("x".data, c4ProviderDoc)]
    query := []
    form := []
    body := none
    method := "GET".data
    path := "/api/test".data }

/-- A server with an empty tool registry. -/
def emptyServer : Server := { tools := [], schemas := [] }

/-- A `tools/call` request naming a tool absent from the registry. -/
def unknownToolRequest : MCPRequest :=
  { jsonrpc := "2.0".data
    id := Json.num ['1']
    method := "tools/call".data
    params := some (Json.obj [("name".data, Json.str "nonexistent".data)]) }

/-- A request with a method name no branch of the dispatcher knows. -/
def unknownMethodRequest : MCPRequest :=
  { jsonrpc := "2.0".data
    id := Json.num ['2']
    method := "bogus/method".data
    params := none }

/-- A registry holding one tool whose handler always fails with a
network-flavoured error text. -/
def failingToolServer : Server :=
  { tools := [("failing".data, fun _ => Except.error "connection refused by backend".data)]
    schemas := [] }

/-- A `tools/call` request naming the failing tool. -/
def failingToolRequest : MCPRequest :=
  { jsonrpc := "2.0".data
    id := Json.num ['3']
    method := "tools/call".data
    params := some (Json.obj [("name".data, Json.str "failing".data)]) }

/-- A directive whose expression is syntactically malformed (unbalanced
bracket), drawn from the repository's own tests. -/
def badDirective : HeaderItem :=
  { header := { name := "Bad".data, value := []
                valueFrom := "invalid.jsonpath[expression".data } }

/-- A well-formed expression directive. -/
def goodDirective : HeaderItem :=
  { header := { name := "Good".data, value := []
                valueFrom := "request.headers['authorization']".data } }

/-- A small context with one authorization header (whose value is not
JSON). -/
def sampleCtx : RequestContext :=
  { headers := [("authorization".data, "Bearer t".data)]
    query := []
    form := []
    body := none
    method := "GET".data
    path := "/t".data }

/-- A configuration whose authentication directive group is malformed and
whose general directive group is well-formed. -/
def sampleCfg : OpenAPIConfigSlice :=
  { auth := { type := "none".data, token := [], username := [], password := []
              apiKey := [], apiKeyName := [], apiKeyIn := []
              headers := [badDirective] }
    headers := [goodDirective] }

/-- An input line that is a JSON object yet fails to decode as a request
(its `method` member is a number). -/
def badMethodLine : GoStr := "\x7b\"id\":7,\"method\":5\x7d".data

/-- The three bracketed sources of the expression grammar. -/
inductive ReqSource where
  | headers : ReqSource
  | query : ReqSource
  | form : ReqSource

/-- The source keyword. -/
def sourceName : ReqSource → GoStr
  | ReqSource.headers => "headers".data
  | ReqSource.query => "query".data
  | ReqSource.form => "form".data

/-- The simple (nested-path-free) expression `request.<src>['<k>']`. -/
def simpleExpr (src : ReqSource) (k : GoStr) : GoStr :=
  "request.".data ++ sourceName src ++ "['".data ++ k ++ "']".data

/-- The context map a source addresses. -/
def sourceMapOf : ReqSource → RequestContext → List (GoStr × GoStr)
  | ReqSource.headers, ctx => ctx.headers
  | ReqSource.query, ctx => ctx.query
  | ReqSource.form, ctx => ctx.form

/-- The key a bracketed lookup actually uses: lower-cased for the headers
source, verbatim for query and form. -/
def sourceKey : ReqSource → GoStr → GoStr
  | ReqSource.headers, k => golower k
  | ReqSource.query, k => k
  | ReqSource.form, k => k

/-- Characters of an ordinary bracketed key: free of the bracket, quote and
case-folding edge cases of the ad hoc scanner (every header, query or form
name made of letters, digits, dashes and underscores qualifies). -/
def plainKeyChar (c : Char) : Bool :=
  !(c = '[') && !(c = ']') && !(c = '"') && !(c = '\'') &&
  !(Char.toLower c = '"')

/-- A context with query keys differing only in case, bound to different
values. -/
def c9QueryCtx : RequestContext :=
  { headers := []
    query := [("ClientId".data, "upper-val".data),
              ("clientid".data, "lower-val".data)]
    form := []
    body := none
    method := "GET".data
    path := "/t".data }

/-! ## Theorems -/

/-- C4: for a context whose headers map binds key `x` to the JSON text
`\x7b"apikey":"sk-1234567890","auth":\x7b"api_key":"key-abc123"\x7d\x7d`, evaluating
`request.headers['x'].apikey` returns `sk-1234567890` and evaluating
`request.headers['x'].auth.api_key` returns `key-abc123`, both without
error. -/
theorem c4_round_trip :
    evaluateValueFrom "request.headers['x'].apikey".data c4Context
      = Except.ok "sk-1234567890".data ∧
    evaluateValueFrom "request.headers['x'].auth.api_key".data c4Context
      = Except.ok "key-abc123".data := by
  constructor <;> rfl

/-- C1 counterexample: on the empty registry, a `tools/call` naming an
unknown tool and a request with an unknown method name receive the same
numeric error code `ErrorCodeMethodNotFound`, so the claimed distinct
"tool not found" code does not exist in the dispatcher's behaviour. -/
theorem c1_counterexample :
    (HandleRequest emptyServer unknownToolRequest).error.map MCPError.code
      = (HandleRequest emptyServer unknownMethodRequest).error.map MCPError.code ∧
    (HandleRequest emptyServer unknownToolRequest).error.map MCPError.code
      = some ErrorCodeMethodNotFound := by
  constructor <;> rfl

/-- C1 amended: a `tools/call` naming a tool absent from the registry
returns a JSON-RPC error with message `Tool not found` whose numeric code
is `ErrorCodeMethodNotFound` — the same code the dispatcher returns for an
unknown method name (whose message is `Method not found`); the distinct
`ErrorCodeToolNotFound` constant exists but is used by no branch. -/
theorem c1_amended_tool_not_found (s : Server) (req : MCPRequest)
    (p : CallToolParams)
    (hm : req.method = "tools/call".data)
    (hp : decodeCallToolParams req.params = some p)
    (hf : s.tools.find? (fun q => q.1 == p.name) = none) :
    (HandleRequest s req).error = some
      { code := ErrorCodeMethodNotFound
        message := "Tool not found".data
        data := some (Json.str p.name) } ∧
    ∀ req2 : MCPRequest,
      req2.method ≠ "initialize".data →
      req2.method ≠ "tools/list".data →
      req2.method ≠ "notifications/initialized".data →
      req2.method ≠ "tools/call".data →
      (HandleRequest s req2).error = some
        { code := ErrorCodeMethodNotFound
          message := "Method not found".data
          data := some (Json.str req2.method) } := by
  constructor
  · simp [HandleRequest, hm, hp, hf]
  · intro req2 h1 h2 h3 h4
    simp [HandleRequest, h1, h2, h3, h4]

/-- C1 amended, witnessed at the empty registry and the two concrete
requests above. -/
theorem c1_amended_witness :
    decodeCallToolParams unknownToolRequest.params
      = some { name := "nonexistent".data, arguments := Json.null } ∧
    (HandleRequest emptyServer unknownToolRequest).error = some
      { code := ErrorCodeMethodNotFound
        message := "Tool not found".data
        data := some (Json.str "nonexistent".data) } ∧
    (HandleRequest emptyServer unknownMethodRequest).error = some
      { code := ErrorCodeMethodNotFound
        message := "Method not found".data
        data := some (Json.str "bogus/method".data) } := by
  refine ⟨rfl, ?_, ?_⟩
  · exact (c1_amended_tool_not_found emptyServer unknownToolRequest
      { name := "nonexistent".data, arguments := Json.null } rfl rfl rfl).1
  · exact (c1_amended_tool_not_found emptyServer unknownToolRequest
      { name := "nonexistent".data, arguments := Json.null } rfl rfl rfl).2
      unknownMethodRequest (by decide) (by decide) (by decide) (by decide)

set_option maxHeartbeats 1000000 in
/-- The code picked by `categorizeToolError` always lies in the
tool-execution band -4006 .. -4000. -/
theorem categorizeToolError_band (e : GoStr) :
    -4006 ≤ (categorizeToolError e).1 ∧ (categorizeToolError e).1 ≤ -4000 := by
  unfold categorizeToolError categorizeToolErrorLower
  by_cases h1 : goContains (golower e) "timeout".data = true ∨ goContains (golower e) "deadline exceeded".data = true
  · simp only [if_pos h1]
    exact ⟨by decide, by decide⟩
  simp only [if_neg h1]
  by_cases h2 : goContains (golower e) "connection refused".data = true ∨ goContains (golower e) "no such host".data = true ∨ goContains (golower e) "network is unreachable".data = true ∨ goContains (golower e) "connection reset".data = true
  · simp only [if_pos h2]
    exact ⟨by decide, by decide⟩
  simp only [if_neg h2]
  by_cases h3 : goContains (golower e) "unauthorized".data = true ∨ goContains (golower e) "authentication failed".data = true ∨ goContains (golower e) "invalid credentials".data = true ∨ goContains (golower e) "token expired".data = true ∨ goContains (golower e) "forbidden".data = true ∨ goContains (golower e) "access denied".data = true
  · simp only [if_pos h3]
    exact ⟨by decide, by decide⟩
  simp only [if_neg h3]
  by_cases h4 : (goContains (golower e) "required".data = true ∧ goContains (golower e) "not provided".data = true) ∨ goContains (golower e) "invalid parameter".data = true ∨ goContains (golower e) "validation failed".data = true ∨ goContains (golower e) "invalid format".data = true ∨ goContains (golower e) "missing required field".data = true
  · simp only [if_pos h4]
    exact ⟨by decide, by decide⟩
  simp only [if_neg h4]
  by_cases h5 : goContains (golower e) "marshal".data = true ∨ goContains (golower e) "unmarshal".data = true ∨ goContains (golower e) "json".data = true ∨ goContains (golower e) "serialization".data = true
  · simp only [if_pos h5]
    exact ⟨by decide, by decide⟩
  simp only [if_neg h5]
  by_cases h6 : goContains (golower e) "status 400".data = true ∨ goContains (golower e) "bad request".data = true
  · simp only [if_pos h6]
    exact ⟨by decide, by decide⟩
  simp only [if_neg h6]
  by_cases h7 : goContains (golower e) "status 401".data = true
  · simp only [if_pos h7]
    exact ⟨by decide, by decide⟩
  simp only [if_neg h7]
  by_cases h8 : goContains (golower e) "status 403".data = true
  · simp only [if_pos h8]
    exact ⟨by decide, by decide⟩
  simp only [if_neg h8]
  by_cases h9 : goContains (golower e) "status 404".data = true
  · simp only [if_pos h9]
    exact ⟨by decide, by decide⟩
  simp only [if_neg h9]
  by_cases h10 : goContains (golower e) "status 422".data = true
  · simp only [if_pos h10]
    exact ⟨by decide, by decide⟩
  simp only [if_neg h10]
  by_cases h11 : goContains (golower e) "status 429".data = true
  · simp only [if_pos h11]
    exact ⟨by decide, by decide⟩
  simp only [if_neg h11]
  by_cases h12 : goContains (golower e) "status 5".data = true
  · simp only [if_pos h12]
    exact ⟨by decide, by decide⟩
  simp only [if_neg h12]
  exact ⟨by decide, by decide⟩

/-- C7: for every `tools/call` whose handler returns an error, the engine
answers with the JSON-RPC error whose code and message are chosen by
`categorizeToolError` from the failure's text — a code inside the
tool-execution taxonomy band — and the original error text is carried
verbatim in the error object's data field. -/
theorem c7_tool_error_taxonomy (s : Server) (req : MCPRequest)
    (p : CallToolParams) (h : GoStr × ToolHandler) (e : GoStr)
    (hm : req.method = "tools/call".data)
    (hp : decodeCallToolParams req.params = some p)
    (hf : s.tools.find? (fun q => q.1 == p.name) = some h)
    (he : h.2 p.arguments = Except.error e) :
    (HandleRequest s req).error = some
      { code := (categorizeToolError e).1
        message := (categorizeToolError e).2
        data := some (Json.str e) } ∧
    -4006 ≤ (categorizeToolError e).1 ∧ (categorizeToolError e).1 ≤ -4000 := by
  refine ⟨?_, categorizeToolError_band e⟩
  simp [HandleRequest, hm, hp, hf, he]

/-- C7, witnessed at the failing tool above (a network-band failure whose
text is preserved in the data field). -/
theorem c7_witness :
    decodeCallToolParams failingToolRequest.params
      = some { name := "failing".data, arguments := Json.null } ∧
    (HandleRequest failingToolServer failingToolRequest).error = some
      { code := (categorizeToolError "connection refused by backend".data).1
        message := (categorizeToolError "connection refused by backend".data).2
        data := some (Json.str "connection refused by backend".data) } ∧
    -4006 ≤ (categorizeToolError "connection refused by backend".data).1 ∧
    (categorizeToolError "connection refused by backend".data).1 ≤ -4000 := by
  refine ⟨rfl, ?_⟩
  exact c7_tool_error_taxonomy failingToolServer failingToolRequest
    { name := "failing".data, arguments := Json.null }
    ("failing".data, fun _ => Except.error "connection refused by backend".data)
    "connection refused by backend".data rfl rfl rfl rfl

/-- C8: for every expression carrying a nested path whose base value
exists in the context but is not syntactically valid JSON, evaluation
returns the base value unchanged, silently ignoring the nested path, with
no error. -/
theorem c8_non_json_base (expression : GoStr) (ctx : RequestContext)
    (s : GoStr)
    (hn : hasNestedPath expression = true)
    (hb : jsonpathGet (extractBasePath expression) ctx.toJson
            = Except.ok (Json.str s))
    (hj : isJSONString s = false) :
    evaluateValueFrom expression ctx = Except.ok s := by
  unfold evaluateValueFrom evaluateNestedExpression
  simp [hn, hb, hj]

/-- C8, witnessed at a header whose value `Bearer t` is not JSON, under an
expression with the nested path `.key`. -/
theorem c8_witness :
    hasNestedPath "request.headers['authorization'].key".data = true ∧
    jsonpathGet (extractBasePath "request.headers['authorization'].key".data)
        sampleCtx.toJson = Except.ok (Json.str "Bearer t".data) ∧
    isJSONString "Bearer t".data = false ∧
    evaluateValueFrom "request.headers['authorization'].key".data sampleCtx
      = Except.ok "Bearer t".data := by
  refine ⟨rfl, rfl, rfl, ?_⟩
  exact c8_non_json_base "request.headers['authorization'].key".data sampleCtx
    "Bearer t".data rfl rfl rfl

/-- C6: every non-empty input line that fails to decode as a JSON-RPC
request yields a response whose error is code `ErrorCodeInvalidRequest`
with message `Parse error`; the response id is salvaged best-effort — the
`id` member when the raw line parses as a JSON object, null otherwise —
and the transport carries on with the remaining lines. -/
theorem c6_parse_error_salvage (s : Server) (line : GoStr) (rest : List GoStr)
    (hne : line ≠ [])
    (hbad : decodeMCPRequest line = none) :
    runStdio s (line :: rest) = parseErrorResponse line :: runStdio s rest ∧
    (parseErrorResponse line).error = some
      { code := ErrorCodeInvalidRequest
        message := "Parse error".data
        data := some (Json.str "unmarshal error".data) } ∧
    (∀ fields, parseJson line = some (Json.obj fields) →
      (parseErrorResponse line).id = (lookupField fields "id".data).getD Json.null) ∧
    (∀ j, parseJson line = some j → (∀ fields, j ≠ Json.obj fields) →
      (parseErrorResponse line).id = Json.null) ∧
    (parseJson line = none → (parseErrorResponse line).id = Json.null) := by
  refine ⟨?_, rfl, ?_, ?_, ?_⟩
  · simp [runStdio, processLine, hne, hbad]
  · intro fields hp
    simp only [parseErrorResponse, salvageId, hp]
    cases lookupField fields "id".data <;> rfl
  · intro j hp hnb
    simp only [parseErrorResponse, salvageId, hp]
    cases j with
    | obj fields => exact absurd rfl (hnb fields)
    | null => rfl
    | bool b => rfl
    | num t => rfl
    | str t => rfl
    | arr xs => rfl
  · intro hp
    simp [parseErrorResponse, salvageId, hp]

/-- C6, witnessed at a line that is a JSON object with a numeric `method`
member: the struct decode fails, the id `7` is salvaged, and processing
continues with the next line. -/
theorem c6_witness :
    badMethodLine ≠ [] ∧
    decodeMCPRequest badMethodLine = none ∧
    runStdio emptyServer [badMethodLine] = [parseErrorResponse badMethodLine] ∧
    (parseErrorResponse badMethodLine).id = Json.num ['7'] ∧
    (parseErrorResponse badMethodLine).error = some
      { code := ErrorCodeInvalidRequest
        message := "Parse error".data
        data := some (Json.str "unmarshal error".data) } := by
  refine ⟨by decide, rfl, ?_, rfl, ?_⟩
  · exact (c6_parse_error_salvage emptyServer badMethodLine [] (by decide) rfl).1
  · exact (c6_parse_error_salvage emptyServer badMethodLine [] (by decide) rfl).2.1

/-- C5: with the outbound header set threaded explicitly, an evaluator
failure on the authentication directive group leaves only the
scheme-derived auth headers and the call still proceeds — reaching the
general-header phase, which alone decides success — while an evaluator
failure on the general directive group fails that single call; both paths
return normally (no path terminates the process). -/
theorem c5_auth_vs_general_policy (cfg : OpenAPIConfigSlice)
    (ctx : RequestContext) (reqHeaders : List (GoStr × GoStr))
    (ha : (EvaluateHeaders cfg.auth.headers ctx).isOk = false) :
    addAuthHeaders cfg ctx reqHeaders = schemeAuthHeaders cfg.auth reqHeaders ∧
    (∀ e2, EvaluateHeaders cfg.headers ctx = Except.error e2 →
      handleAPICallHeaders cfg ctx reqHeaders = Except.error e2) ∧
    (∀ m, EvaluateHeaders cfg.headers ctx = Except.ok m →
      handleAPICallHeaders cfg ctx reqHeaders = Except.ok
        (m.foldl (fun acc q => mapSet acc q.1 q.2)
          (schemeAuthHeaders cfg.auth reqHeaders))) := by
  have haerr : ∃ e, EvaluateHeaders cfg.auth.headers ctx = Except.error e := by
    cases h : EvaluateHeaders cfg.auth.headers ctx with
    | error e => exact ⟨e, rfl⟩
    | ok m => rw [h] at ha; simp [Except.isOk, Except.toBool] at ha
  obtain ⟨e, he⟩ := haerr
  have hadd : addAuthHeaders cfg ctx reqHeaders
      = schemeAuthHeaders cfg.auth reqHeaders := by
    simp [addAuthHeaders, he]
  refine ⟨hadd, ?_, ?_⟩
  · intro e2 hg
    simp [handleAPICallHeaders, hg]
  · intro m hg
    simp [handleAPICallHeaders, hg, hadd]

/-- C5, witnessed at a configuration whose auth directive group holds a
malformed expression and whose general group resolves: the auth failure is
skipped, the general group decides the outcome. -/
theorem c5_witness :
    (EvaluateHeaders sampleCfg.auth.headers sampleCtx).isOk = false ∧
    addAuthHeaders sampleCfg sampleCtx []
      = schemeAuthHeaders sampleCfg.auth [] ∧
    handleAPICallHeaders sampleCfg sampleCtx [] = Except.ok
      ([("Good".data, "Bearer t".data)].foldl
        (fun acc q => mapSet acc q.1 q.2) (schemeAuthHeaders sampleCfg.auth [])) := by
  refine ⟨rfl, ?_, ?_⟩
  · exact (c5_auth_vs_general_policy sampleCfg sampleCtx [] rfl).1
  · exact (c5_auth_vs_general_policy sampleCfg sampleCtx [] rfl).2.2
      [("Good".data, "Bearer t".data)] rfl

/-- A batch whose list contains an expression-valued directive whose
expression fails to evaluate always aborts: the fold's outcome is an error
whatever the accumulator, and the directives after the failing one never
influence the outcome. -/
theorem evaluateHeadersAux_abort (ctx : RequestContext) (d : HeaderItem)
    (hv : d.header.value = [])
    (hvf : d.header.valueFrom ≠ [])
    (hbe : (evaluateValueFrom d.header.valueFrom ctx).isOk = false) :
    ∀ (pre post : HeadersConfig) (acc : List (GoStr × GoStr)),
      (evaluateHeadersAux ctx (pre ++ d :: post) acc).isOk = false ∧
      ∀ post2, evaluateHeadersAux ctx (pre ++ d :: post) acc
        = evaluateHeadersAux ctx (pre ++ d :: post2) acc := by
  have hderr : ∃ e, evaluateValueFrom d.header.valueFrom ctx = Except.error e := by
    cases h : evaluateValueFrom d.header.valueFrom ctx with
    | error e => exact ⟨e, rfl⟩
    | ok v => rw [h] at hbe; simp [Except.isOk, Except.toBool] at hbe
  obtain ⟨e, he⟩ := hderr
  intro pre
  induction pre with
  | nil =>
    intro post acc
    constructor
    · simp [evaluateHeadersAux, hv, hvf, he, Except.isOk, Except.toBool]
    · intro post2
      simp [evaluateHeadersAux, hv, hvf, he]
  | cons p rest ih =>
    intro post acc
    by_cases hpv : p.header.value = []
    · by_cases hpf : p.header.valueFrom = []
      · constructor
        · simpa [evaluateHeadersAux, hpv, hpf] using (ih post acc).1
        · intro post2
          simpa [evaluateHeadersAux, hpv, hpf] using (ih post acc).2 post2
      · cases hev : evaluateValueFrom p.header.valueFrom ctx with
        | error e2 =>
          constructor
          · simp [evaluateHeadersAux, hpv, hpf, hev, Except.isOk, Except.toBool]
          · intro post2
            simp [evaluateHeadersAux, hpv, hpf, hev]
        | ok v =>
          by_cases hvne : v = []
          · constructor
            · simpa [evaluateHeadersAux, hpv, hpf, hev, hvne] using (ih post acc).1
            · intro post2
              simpa [evaluateHeadersAux, hpv, hpf, hev, hvne] using
                (ih post acc).2 post2
          · constructor
            · simpa [evaluateHeadersAux, hpv, hpf, hev, hvne] using
                (ih post (mapSet acc p.header.name v)).1
            · intro post2
              simpa [evaluateHeadersAux, hpv, hpf, hev, hvne] using
                (ih post (mapSet acc p.header.name v)).2 post2
    · constructor
      · simpa [evaluateHeadersAux, hpv] using
          (ih post (mapSet acc p.header.name p.header.value)).1
      · intro post2
        simpa [evaluateHeadersAux, hpv] using
          (ih post (mapSet acc p.header.name p.header.value)).2 post2

/-- C2: a directive list containing an expression-valued directive whose
expression fails to evaluate (for example an unbalanced bracket) makes
`EvaluateHeaders` return an error for the whole batch: no header map is
returned at all (so no directive's resolved value is visible, including
values of well-formed directives earlier in the list), and the directives
after the failing one never influence the outcome. -/
theorem c2_batch_abort (ctx : RequestContext) (pre post : HeadersConfig)
    (d : HeaderItem)
    (hv : d.header.value = [])
    (hvf : d.header.valueFrom ≠ [])
    (hbe : (evaluateValueFrom d.header.valueFrom ctx).isOk = false) :
    (EvaluateHeaders (pre ++ d :: post) ctx).isOk = false ∧
    (∀ m, EvaluateHeaders (pre ++ d :: post) ctx ≠ Except.ok m) ∧
    ∀ post2, EvaluateHeaders (pre ++ d :: post) ctx
      = EvaluateHeaders (pre ++ d :: post2) ctx := by
  have h := evaluateHeadersAux_abort ctx d hv hvf hbe pre post []
  refine ⟨h.1, ?_, h.2⟩
  intro m hm
  have := h.1
  rw [EvaluateHeaders] at hm
  rw [hm] at this
  simp [Except.isOk, Except.toBool] at this

/-- C2, witnessed at a batch holding one well-formed directive followed by
the unbalanced-bracket directive from the repository's tests. -/
theorem c2_witness :
    badDirective.header.value = [] ∧
    badDirective.header.valueFrom ≠ [] ∧
    (evaluateValueFrom badDirective.header.valueFrom sampleCtx).isOk = false ∧
    (EvaluateHeaders [goodDirective, badDirective] sampleCtx).isOk = false ∧
    EvaluateHeaders [goodDirective, badDirective] sampleCtx
      = EvaluateHeaders [goodDirective, badDirective, goodDirective] sampleCtx := by
  refine ⟨rfl, by decide, rfl, ?_, ?_⟩
  · exact (c2_batch_abort sampleCtx [goodDirective] [] badDirective rfl
      (by decide) rfl).1
  · exact (c2_batch_abort sampleCtx [goodDirective] [] badDirective rfl
      (by decide) rfl).2.2 [goodDirective]

/-- A character different from every element of a string is not found by
the index scan. -/
theorem goIndexOf_eq_none (k : GoStr) (c : Char) (h : ∀ x ∈ k, ¬ x = c) :
    goIndexOf k c = none := by
  induction k with
  | nil => rfl
  | cons a rest ih =>
    have ha : ¬ a = c := h a (List.mem_cons_self a rest)
    simp only [goIndexOf, if_neg ha]
    rw [ih fun x hx => h x (List.mem_cons_of_mem a hx)]
    rfl

/-- Scanning past a block that does not hold the needle shifts the found
index by the block's length. -/
theorem goIndexOf_append_of_none (a b : GoStr) (c : Char)
    (ha : goIndexOf a c = none) :
    goIndexOf (a ++ b) c = (goIndexOf b c).map (· + a.length) := by
  induction a with
  | nil =>
    simp only [List.nil_append, List.length_nil]
    cases goIndexOf b c <;> simp
  | cons x rest ih =>
    have hx : ¬ x = c := by
      intro hxc
      simp [goIndexOf, hxc] at ha
    have hrest : goIndexOf rest c = none := by
      simp only [goIndexOf, if_neg hx] at ha
      cases hr : goIndexOf rest c with
      | none => rfl
      | some i => rw [hr] at ha; simp at ha
    rw [List.cons_append]
    simp only [goIndexOf, if_neg hx]
    rw [ih hrest]
    cases goIndexOf b c with
    | none => rfl
    | some i =>
      simp only [Option.map_some', Option.some.injEq, List.length_cons]
      omega

/-- Stripping the `request.` prefix from a prefixed non-empty remainder. -/
theorem stripRequestDot_append (r : GoStr) (hr : r ≠ []) :
    stripRequestDot ("request.".data ++ r) = r := by
  have hlen : 8 < ("request.".data ++ r).length := by
    have hpos : 0 < r.length := List.length_pos.mpr hr
    simp only [List.length_append]
    have h8 : ("request.".data : GoStr).length = 8 := rfl
    rw [h8]
    omega
  have htake : ("request.".data ++ r).take 8 = "request.".data := rfl
  unfold stripRequestDot
  rw [if_pos ⟨hlen, htake⟩]
  rfl

/-- Dropping while a predicate fails everywhere drops nothing. -/
theorem dropWhile_eq_self_of_neg (p : Char → Bool) (l : GoStr)
    (h : ∀ a ∈ l, p a = false) : l.dropWhile p = l := by
  cases l with
  | nil => rfl
  | cons a t =>
    have ha : p a = false := h a (List.mem_cons_self a t)
    simp [List.dropWhile_cons, ha]

/-- `strings.Trim` recovers a quote-free key from its quoted form. -/
theorem trimQuotes_quoted (k : GoStr) (h : ∀ c ∈ k, isQuoteChar c = false) :
    trimQuotes ('\'' :: (k ++ ['\''])) = k := by
  unfold trimQuotes
  rw [List.dropWhile_cons]
  rw [if_pos (show isQuoteChar '\'' = true by decide)]
  cases k with
  | nil => rfl
  | cons a t =>
    have ha : isQuoteChar a = false := h a (List.mem_cons_self a t)
    rw [show (a :: t) ++ ['\''] = a :: (t ++ ['\'']) from rfl]
    rw [List.dropWhile_cons, if_neg (by simp [ha])]
    rw [show (a :: (t ++ ['\''])) = (a :: t) ++ ['\''] from rfl]
    rw [List.reverse_append]
    rw [show (['\''] : GoStr).reverse ++ (a :: t).reverse
        = '\'' :: (a :: t).reverse from rfl]
    rw [List.dropWhile_cons, if_pos (show isQuoteChar '\'' = true by decide)]
    have hrev : ∀ x ∈ (a :: t).reverse, isQuoteChar x = false := by
      intro x hx
      exact h x (List.mem_reverse.mp hx)
    rw [dropWhile_eq_self_of_neg isQuoteChar (a :: t).reverse hrev]
    exact List.reverse_reverse (a :: t)

/-- Reading up to a terminator absent from the prefix consumes exactly the
prefix. -/
theorem readUntil_append (q : Char) (k t : GoStr) (h : ∀ c ∈ k, ¬ c = q) :
    readUntil q (k ++ q :: t) = some (k, t) := by
  induction k with
  | nil => simp [readUntil]
  | cons a as ih =>
    have ha : ¬ a = q := h a (List.mem_cons_self a as)
    rw [List.cons_append]
    simp only [readUntil, if_neg ha]
    rw [ih fun c hc => h c (List.mem_cons_of_mem a hc)]

/-- The identifier reader stops exactly at the first `.` or `[`. -/
theorem readIdent_stop (idnt r : GoStr)
    (hall : ∀ c ∈ idnt, ¬ (c = '.' ∨ c = '['))
    (hr : r = [] ∨ ∃ c t, r = c :: t ∧ (c = '.' ∨ c = '[')) :
    readIdent (idnt ++ r) = (idnt, r) := by
  induction idnt with
  | nil =>
    simp only [List.nil_append]
    rcases hr with rfl | ⟨c, t, rfl, hc⟩
    · rfl
    · simp [readIdent, hc]
  | cons a as ih =>
    have ha : ¬ (a = '.' ∨ a = '[') := hall a (List.mem_cons_self a as)
    rw [List.cons_append]
    simp only [readIdent, if_neg ha]
    rw [ih fun c hc => hall c (List.mem_cons_of_mem a hc)]

/-- The segment reader accepts the empty remainder. -/
theorem parseSegs_nil (fuel : Nat) : parseSegs (fuel + 1) [] = some [] := rfl

/-- One double-quoted bracket segment. -/
theorem parseSegs_dquote (fuel : Nat) (lk t : GoStr)
    (hlk : ∀ c ∈ lk, ¬ c = '"') :
    parseSegs (fuel + 1) ('[' :: '"' :: (lk ++ '"' :: ']' :: t))
      = (parseSegs fuel t).map fun segs => JPSeg.field lk :: segs := by
  have hr : readUntil '"' (lk ++ '"' :: ']' :: t) = some (lk, ']' :: t) :=
    readUntil_append '"' lk (']' :: t) hlk
  simp only [parseSegs, hr]
  cases parseSegs fuel t <;> rfl

/-- One dot segment whose identifier ends at a bracket or dot. -/
theorem parseSegs_dot (fuel : Nat) (idnt rest : GoStr)
    (hid : ¬ idnt = [])
    (hall : ∀ c ∈ idnt, ¬ (c = '.' ∨ c = '['))
    (hr : rest = [] ∨ ∃ c t, rest = c :: t ∧ (c = '.' ∨ c = '[')) :
    parseSegs (fuel + 1) ('.' :: (idnt ++ rest))
      = (parseSegs fuel rest).map fun segs => JPSeg.field idnt :: segs := by
  have hri : readIdent (idnt ++ rest) = (idnt, rest) := readIdent_stop idnt rest hall hr
  simp only [parseSegs, hri, if_neg hid]
  cases parseSegs fuel rest <;> rfl

/-- Unfolding the path parser on a `$`-rooted path. -/
theorem parseJsonPath_cons (r : GoStr) :
    parseJsonPath ('$' :: r) = parseSegs (r.length + 2) r := rfl

/-- A path of the shape `$.ident["key"]` parses into two field segments. -/
theorem parseJsonPath_two_fields (idnt lk : GoStr)
    (hid : ¬ idnt = [])
    (hall : ∀ c ∈ idnt, ¬ (c = '.' ∨ c = '['))
    (hlk : ∀ c ∈ lk, ¬ c = '"') :
    parseJsonPath ('$' :: '.' :: (idnt ++ ('[' :: '"' :: (lk ++ '"' :: ']' :: []))))
      = some [JPSeg.field idnt, JPSeg.field lk] := by
  rw [parseJsonPath_cons]
  have hlen : ('.' :: (idnt ++ ('[' :: '"' :: (lk ++ '"' :: ']' :: [])))).length
      = idnt.length + lk.length + 5 := by
    simp [List.length_append]
    omega
  rw [hlen]
  rw [show idnt.length + lk.length + 5 + 2 = (idnt.length + lk.length + 6) + 1 from by omega]
  rw [parseSegs_dot (idnt.length + lk.length + 6) idnt _ hid hall
    (Or.inr ⟨'[', _, rfl, Or.inr rfl⟩)]
  rw [show idnt.length + lk.length + 6 = (idnt.length + lk.length + 5) + 1 from by omega]
  rw [parseSegs_dquote (idnt.length + lk.length + 5) lk [] hlk]
  rw [show idnt.length + lk.length + 5 = (idnt.length + lk.length + 4) + 1 from by omega]
  rw [parseSegs_nil]
  rfl

/-- The converted path of each source keyword parses into its two
segments. -/
theorem parseJsonPath_source (src : ReqSource) (lk : GoStr)
    (hlk : ∀ c ∈ lk, ¬ c = '"') :
    parseJsonPath ("$.".data ++ sourceName src ++ "[\"".data ++ lk ++ "\"]".data)
      = some [JPSeg.field (sourceName src), JPSeg.field lk] := by
  cases src
  · exact parseJsonPath_two_fields "headers".data lk (by decide) (by decide) hlk
  · exact parseJsonPath_two_fields "query".data lk (by decide) (by decide) hlk
  · exact parseJsonPath_two_fields "form".data lk (by decide) (by decide) hlk

/-- Looking a key up in the JSON image of a string map is looking it up in
the map. -/
theorem lookupField_mapToJson (m : List (GoStr × GoStr)) (lk : GoStr) :
    lookupField (m.map fun p => (p.1, Json.str p.2)) lk
      = (mapGet m lk).map Json.str := by
  unfold lookupField mapGet
  rw [List.find?_map]
  have hcomp : ((fun p : GoStr × Json => p.1 == lk)
      ∘ fun p : GoStr × GoStr => (p.1, Json.str p.2))
      = fun p : GoStr × GoStr => p.1 == lk := rfl
  rw [hcomp]
  cases m.find? fun p => p.1 == lk <;> rfl

/-- Descending one field into a string map image. -/
theorem descend_single_field_map (m : List (GoStr × GoStr)) (lk : GoStr) :
    descend [JPSeg.field lk] (mapToJson m)
      = match mapGet m lk with
        | some s => Except.ok (Json.str s)
        | none => Except.error (JPErr.unknownKey lk) := by
  cases h : mapGet m lk with
  | some s => simp [descend, mapToJson, lookupField_mapToJson, h]
  | none => simp [descend, mapToJson, lookupField_mapToJson, h]

/-- Descending `[sourceName, key]` through the marshalled context reaches
the source's map. -/
theorem descend_source_field (src : ReqSource) (ctx : RequestContext)
    (lk : GoStr) :
    descend [JPSeg.field (sourceName src), JPSeg.field lk] ctx.toJson
      = match mapGet (sourceMapOf src ctx) lk with
        | some s => Except.ok (Json.str s)
        | none => Except.error (JPErr.unknownKey lk) := by
  cases src
  case headers =>
    have h1 : descend [JPSeg.field (sourceName ReqSource.headers), JPSeg.field lk]
        ctx.toJson = descend [JPSeg.field lk] (mapToJson ctx.headers) := rfl
    rw [h1, descend_single_field_map]
    rfl
  case query =>
    have h1 : descend [JPSeg.field (sourceName ReqSource.query), JPSeg.field lk]
        ctx.toJson = descend [JPSeg.field lk] (mapToJson ctx.query) := rfl
    rw [h1, descend_single_field_map]
    rfl
  case form =>
    have h1 : descend [JPSeg.field (sourceName ReqSource.form), JPSeg.field lk]
        ctx.toJson = descend [JPSeg.field lk] (mapToJson ctx.form) := rfl
    rw [h1, descend_single_field_map]
    rfl

/-- A plain key holds no closing bracket. -/
theorem plainKey_not_rb (k : GoStr) (hk : k.all plainKeyChar = true) :
    ∀ c ∈ k, ¬ c = ']' := by
  intro c hc
  have hpc : plainKeyChar c = true := List.all_eq_true.mp hk c hc
  simp only [plainKeyChar, Bool.and_eq_true, Bool.not_eq_true',
    decide_eq_false_iff_not] at hpc
  exact hpc.1.1.1.2

/-- A plain key holds no quote character. -/
theorem plainKey_quote_false (k : GoStr) (hk : k.all plainKeyChar = true) :
    ∀ c ∈ k, isQuoteChar c = false := by
  intro c hc
  have hpc : plainKeyChar c = true := List.all_eq_true.mp hk c hc
  simp only [plainKeyChar, Bool.and_eq_true, Bool.not_eq_true',
    decide_eq_false_iff_not] at hpc
  simp [isQuoteChar, hpc.1.1.2, hpc.1.2]

/-- The looked-up key of any source holds no double quote. -/
theorem sourceKey_no_dquote (src : ReqSource) (k : GoStr)
    (hk : k.all plainKeyChar = true) :
    ∀ c ∈ sourceKey src k, ¬ c = '"' := by
  intro c hc
  cases src
  case headers =>
    rcases List.mem_map.mp hc with ⟨c0, hc0, rfl⟩
    have hpc : plainKeyChar c0 = true := List.all_eq_true.mp hk c0 hc0
    simp only [plainKeyChar, Bool.and_eq_true, Bool.not_eq_true',
      decide_eq_false_iff_not] at hpc
    exact hpc.2
  case query =>
    have hpc : plainKeyChar c = true := List.all_eq_true.mp hk c hc
    simp only [plainKeyChar, Bool.and_eq_true, Bool.not_eq_true',
      decide_eq_false_iff_not] at hpc
    exact hpc.1.1.2
  case form =>
    have hpc : plainKeyChar c = true := List.all_eq_true.mp hk c hc
    simp only [plainKeyChar, Bool.and_eq_true, Bool.not_eq_true',
      decide_eq_false_iff_not] at hpc
    exact hpc.1.1.2

/-- `convertHeaderExpression` on a plain bracketed key. -/
theorem convertHeaderExpression_plain (k : GoStr)
    (hk : k.all plainKeyChar = true) :
    convertHeaderExpression ("headers['".data ++ (k ++ "']".data))
      = "$.headers[\"".data ++ (golower k ++ "\"]".data) := by
  have hnrb := plainKey_not_rb k hk
  have hq := plainKey_quote_false k hk
  have hopen : goIndexOf ("headers['".data ++ (k ++ "']".data)) '[' = some 7 := rfl
  have hkidx : goIndexOf (k ++ "']".data) ']' = some (k.length + 1) := by
    rw [goIndexOf_append_of_none k _ _ (goIndexOf_eq_none k ']' hnrb)]
    rw [show goIndexOf "']".data ']' = some 1 from rfl]
    show some (1 + k.length) = some (k.length + 1)
    exact congrArg some (by omega)
  have hinner : goIndexOf ('\'' :: (k ++ "']".data)) ']' = some (k.length + 2) := by
    simp only [goIndexOf, if_neg (show ¬ '\'' = ']' by decide), hkidx]
    show some (k.length + 1 + 1) = some (k.length + 2)
    exact congrArg some (by omega)
  have hcb : goIndexOfFrom ("headers['".data ++ (k ++ "']".data)) ']' 8
      = some (k.length + 10) := by
    unfold goIndexOfFrom
    rw [show ("headers['".data ++ (k ++ "']".data)).drop 8
        = '\'' :: (k ++ "']".data) from rfl]
    rw [hinner]
    show some (k.length + 2 + 8) = some (k.length + 10)
    exact congrArg some (by omega)
  have hslice : goSlice ("headers['".data ++ (k ++ "']".data)) 8 (k.length + 10)
      = '\'' :: (k ++ ['\'']) := by
    unfold goSlice
    rw [List.take_append_eq_append_take]
    have hA : ("headers['".data : GoStr).length ≤ k.length + 10 := by
      show (9 : Nat) ≤ k.length + 10
      omega
    rw [List.take_of_length_le hA]
    rw [show k.length + 10 - ("headers['".data : GoStr).length = k.length + 1 from by
      show k.length + 10 - 9 = k.length + 1
      omega]
    rw [List.take_append_eq_append_take]
    rw [List.take_of_length_le (show k.length ≤ k.length + 1 by omega)]
    rw [show k.length + 1 - k.length = 1 from by omega]
    rw [show ("']".data : GoStr).take 1 = ['\''] from rfl]
    rw [List.drop_append_eq_append_drop]
    rw [show ("headers['".data : GoStr).drop 8 = ['\''] from rfl]
    rw [show 8 - ("headers['".data : GoStr).length = 0 from rfl]
    rw [List.drop_zero]
    rfl
  have hkey : trimQuotes ('\'' :: (k ++ ['\''])) = k := trimQuotes_quoted k hq
  have hrem : ("headers['".data ++ (k ++ "']".data)).drop (k.length + 10 + 1) = [] := by
    apply List.drop_eq_nil_of_le
    simp only [List.length_append]
    have h9 : ("headers['".data : GoStr).length = 9 := rfl
    have h2 : ("']".data : GoStr).length = 2 := rfl
    rw [h9, h2]
    omega
  unfold convertHeaderExpression
  simp only [hopen, hcb, hslice, hkey, hrem]
  rfl

/-- `convertQueryExpression` on a plain bracketed key. -/
theorem convertQueryExpression_plain (k : GoStr)
    (hk : k.all plainKeyChar = true) :
    convertQueryExpression ("query['".data ++ (k ++ "']".data))
      = "$.query[\"".data ++ (k ++ "\"]".data) := by
  have hnrb := plainKey_not_rb k hk
  have hq := plainKey_quote_false k hk
  have hopen : goIndexOf ("query['".data ++ (k ++ "']".data)) '[' = some 5 := rfl
  have hkidx : goIndexOf (k ++ "']".data) ']' = some (k.length + 1) := by
    rw [goIndexOf_append_of_none k _ _ (goIndexOf_eq_none k ']' hnrb)]
    rw [show goIndexOf "']".data ']' = some 1 from rfl]
    show some (1 + k.length) = some (k.length + 1)
    exact congrArg some (by omega)
  have hinner : goIndexOf ('\'' :: (k ++ "']".data)) ']' = some (k.length + 2) := by
    simp only [goIndexOf, if_neg (show ¬ '\'' = ']' by decide), hkidx]
    show some (k.length + 1 + 1) = some (k.length + 2)
    exact congrArg some (by omega)
  have hcb : goIndexOfFrom ("query['".data ++ (k ++ "']".data)) ']' 6
      = some (k.length + 8) := by
    unfold goIndexOfFrom
    rw [show ("query['".data ++ (k ++ "']".data)).drop 6
        = '\'' :: (k ++ "']".data) from rfl]
    rw [hinner]
    show some (k.length + 2 + 6) = some (k.length + 8)
    exact congrArg some (by omega)
  have hslice : goSlice ("query['".data ++ (k ++ "']".data)) 6 (k.length + 8)
      = '\'' :: (k ++ ['\'']) := by
    unfold goSlice
    rw [List.take_append_eq_append_take]
    have hA : ("query['".data : GoStr).length ≤ k.length + 8 := by
      show (7 : Nat) ≤ k.length + 8
      omega
    rw [List.take_of_length_le hA]
    rw [show k.length + 8 - ("query['".data : GoStr).length = k.length + 1 from by
      show k.length + 8 - 7 = k.length + 1
      omega]
    rw [List.take_append_eq_append_take]
    rw [List.take_of_length_le (show k.length ≤ k.length + 1 by omega)]
    rw [show k.length + 1 - k.length = 1 from by omega]
    rw [show ("']".data : GoStr).take 1 = ['\''] from rfl]
    rw [List.drop_append_eq_append_drop]
    rw [show ("query['".data : GoStr).drop 6 = ['\''] from rfl]
    rw [show 6 - ("query['".data : GoStr).length = 0 from rfl]
    rw [List.drop_zero]
    rfl
  have hkey : trimQuotes ('\'' :: (k ++ ['\''])) = k := trimQuotes_quoted k hq
  have hrem : ("query['".data ++ (k ++ "']".data)).drop (k.length + 8 + 1) = [] := by
    apply List.drop_eq_nil_of_le
    simp only [List.length_append]
    have h7 : ("query['".data : GoStr).length = 7 := rfl
    have h2 : ("']".data : GoStr).length = 2 := rfl
    rw [h7, h2]
    omega
  unfold convertQueryExpression
  simp only [hopen, hcb, hslice, hkey, hrem]
  rfl

/-- `convertFormExpression` on a plain bracketed key. -/
theorem convertFormExpression_plain (k : GoStr)
    (hk : k.all plainKeyChar = true) :
    convertFormExpression ("form['".data ++ (k ++ "']".data))
      = "$.form[\"".data ++ (k ++ "\"]".data) := by
  have hnrb := plainKey_not_rb k hk
  have hq := plainKey_quote_false k hk
  have hopen : goIndexOf ("form['".data ++ (k ++ "']".data)) '[' = some 4 := rfl
  have hkidx : goIndexOf (k ++ "']".data) ']' = some (k.length + 1) := by
    rw [goIndexOf_append_of_none k _ _ (goIndexOf_eq_none k ']' hnrb)]
    rw [show goIndexOf "']".data ']' = some 1 from rfl]
    show some (1 + k.length) = some (k.length + 1)
    exact congrArg some (by omega)
  have hinner : goIndexOf ('\'' :: (k ++ "']".data)) ']' = some (k.length + 2) := by
    simp only [goIndexOf, if_neg (show ¬ '\'' = ']' by decide), hkidx]
    show some (k.length + 1 + 1) = some (k.length + 2)
    exact congrArg some (by omega)
  have hcb : goIndexOfFrom ("form['".data ++ (k ++ "']".data)) ']' 5
      = some (k.length + 7) := by
    unfold goIndexOfFrom
    rw [show ("form['".data ++ (k ++ "']".data)).drop 5
        = '\'' :: (k ++ "']".data) from rfl]
    rw [hinner]
    show some (k.length + 2 + 5) = some (k.length + 7)
    exact congrArg some (by omega)
  have hslice : goSlice ("form['".data ++ (k ++ "']".data)) 5 (k.length + 7)
      = '\'' :: (k ++ ['\'']) := by
    unfold goSlice
    rw [List.take_append_eq_append_take]
    have hA : ("form['".data : GoStr).length ≤ k.length + 7 := by
      show (6 : Nat) ≤ k.length + 7
      omega
    rw [List.take_of_length_le hA]
    rw [show k.length + 7 - ("form['".data : GoStr).length = k.length + 1 from by
      show k.length + 7 - 6 = k.length + 1
      omega]
    rw [List.take_append_eq_append_take]
    rw [List.take_of_length_le (show k.length ≤ k.length + 1 by omega)]
    rw [show k.length + 1 - k.length = 1 from by omega]
    rw [show ("']".data : GoStr).take 1 = ['\''] from rfl]
    rw [List.drop_append_eq_append_drop]
    rw [show ("form['".data : GoStr).drop 5 = ['\''] from rfl]
    rw [show 5 - ("form['".data : GoStr).length = 0 from rfl]
    rw [List.drop_zero]
    rfl
  have hkey : trimQuotes ('\'' :: (k ++ ['\''])) = k := trimQuotes_quoted k hq
  have hrem : ("form['".data ++ (k ++ "']".data)).drop (k.length + 7 + 1) = [] := by
    apply List.drop_eq_nil_of_le
    simp only [List.length_append]
    have h6 : ("form['".data : GoStr).length = 6 := rfl
    have h2 : ("']".data : GoStr).length = 2 := rfl
    rw [h6, h2]
    omega
  unfold convertFormExpression
  simp only [hopen, hcb, hslice, hkey, hrem]
  rfl

/-- Converting a simple bracketed expression yields the two-segment
jsonpath over the source's map, with the key case-folded exactly for the
headers source. -/
theorem convert_simpleExpr (src : ReqSource) (k : GoStr)
    (hk : k.all plainKeyChar = true) :
    convertExpressionToJSONPath (simpleExpr src k)
      = "$.".data ++ sourceName src ++ "[\"".data ++ sourceKey src k ++ "\"]".data := by
  cases src
  case headers =>
    show convertExpressionToJSONPath
      ("request.".data ++ ("headers['".data ++ (k ++ "']".data))) = _
    unfold convertExpressionToJSONPath
    rw [stripRequestDot_append _ (by simp)]
    rw [if_pos (show List.isPrefixOf "headers[".data
      ("headers['".data ++ (k ++ "']".data)) = true from rfl)]
    rw [convertHeaderExpression_plain k hk]
    rfl
  case query =>
    show convertExpressionToJSONPath
      ("request.".data ++ ("query['".data ++ (k ++ "']".data))) = _
    unfold convertExpressionToJSONPath
    rw [stripRequestDot_append _ (by simp)]
    have hn1 : ¬ (List.isPrefixOf "headers[".data
        ("query['".data ++ (k ++ "']".data)) = true) := by
      rw [show List.isPrefixOf "headers[".data
        ("query['".data ++ (k ++ "']".data)) = false from rfl]
      simp
    rw [if_neg hn1]
    rw [if_pos (show List.isPrefixOf "query[".data
      ("query['".data ++ (k ++ "']".data)) = true from rfl)]
    rw [convertQueryExpression_plain k hk]
    rfl
  case form =>
    show convertExpressionToJSONPath
      ("request.".data ++ ("form['".data ++ (k ++ "']".data))) = _
    unfold convertExpressionToJSONPath
    rw [stripRequestDot_append _ (by simp)]
    have hn1 : ¬ (List.isPrefixOf "headers[".data
        ("form['".data ++ (k ++ "']".data)) = true) := by
      rw [show List.isPrefixOf "headers[".data
        ("form['".data ++ (k ++ "']".data)) = false from rfl]
      simp
    rw [if_neg hn1]
    have hn2 : ¬ (List.isPrefixOf "query[".data
        ("form['".data ++ (k ++ "']".data)) = true) := by
      rw [show List.isPrefixOf "query[".data
        ("form['".data ++ (k ++ "']".data)) = false from rfl]
      simp
    rw [if_neg hn2]
    rw [if_pos (show List.isPrefixOf "form[".data
      ("form['".data ++ (k ++ "']".data)) = true from rfl)]
    rw [convertFormExpression_plain k hk]
    rfl

/-- A simple bracketed expression carries no nested path: its only `]` is
its last character. -/
theorem hasNestedPath_simpleExpr (src : ReqSource) (k : GoStr)
    (hk : k.all plainKeyChar = true) :
    hasNestedPath (simpleExpr src k) = false := by
  have hnrb := plainKey_not_rb k hk
  cases src
  case headers =>
    show hasNestedPath ("request.headers['".data ++ (k ++ "']".data)) = false
    unfold hasNestedPath
    have hidx : goIndexOf ("request.headers['".data ++ (k ++ "']".data)) ']'
        = some (k.length + 18) := by
      rw [goIndexOf_append_of_none _ _ _
        (show goIndexOf "request.headers['".data ']' = none from rfl)]
      rw [goIndexOf_append_of_none k _ _ (goIndexOf_eq_none k ']' hnrb)]
      rw [show goIndexOf "']".data ']' = some 1 from rfl]
      show some (1 + k.length + 17) = some (k.length + 18)
      exact congrArg some (by omega)
    simp only [hidx]
    have hdrop : ("request.headers['".data ++ (k ++ "']".data)).drop
        (k.length + 18 + 1) = [] := by
      apply List.drop_eq_nil_of_le
      simp only [List.length_append]
      rw [show ("request.headers['".data : GoStr).length = 17 from rfl]
      rw [show ("']".data : GoStr).length = 2 from rfl]
      omega
    simp only [hdrop]
  case query =>
    show hasNestedPath ("request.query['".data ++ (k ++ "']".data)) = false
    unfold hasNestedPath
    have hidx : goIndexOf ("request.query['".data ++ (k ++ "']".data)) ']'
        = some (k.length + 16) := by
      rw [goIndexOf_append_of_none _ _ _
        (show goIndexOf "request.query['".data ']' = none from rfl)]
      rw [goIndexOf_append_of_none k _ _ (goIndexOf_eq_none k ']' hnrb)]
      rw [show goIndexOf "']".data ']' = some 1 from rfl]
      show some (1 + k.length + 15) = some (k.length + 16)
      exact congrArg some (by omega)
    simp only [hidx]
    have hdrop : ("request.query['".data ++ (k ++ "']".data)).drop
        (k.length + 16 + 1) = [] := by
      apply List.drop_eq_nil_of_le
      simp only [List.length_append]
      rw [show ("request.query['".data : GoStr).length = 15 from rfl]
      rw [show ("']".data : GoStr).length = 2 from rfl]
      omega
    simp only [hdrop]
  case form =>
    show hasNestedPath ("request.form['".data ++ (k ++ "']".data)) = false
    unfold hasNestedPath
    have hidx : goIndexOf ("request.form['".data ++ (k ++ "']".data)) ']'
        = some (k.length + 15) := by
      rw [goIndexOf_append_of_none _ _ _
        (show goIndexOf "request.form['".data ']' = none from rfl)]
      rw [goIndexOf_append_of_none k _ _ (goIndexOf_eq_none k ']' hnrb)]
      rw [show goIndexOf "']".data ']' = some 1 from rfl]
      show some (1 + k.length + 14) = some (k.length + 15)
      exact congrArg some (by omega)
    simp only [hidx]
    have hdrop : ("request.form['".data ++ (k ++ "']".data)).drop
        (k.length + 15 + 1) = [] := by
      apply List.drop_eq_nil_of_le
      simp only [List.length_append]
      rw [show ("request.form['".data : GoStr).length = 14 from rfl]
      rw [show ("']".data : GoStr).length = 2 from rfl]
      omega
    simp only [hdrop]

/-- Evaluating a simple bracketed expression is exactly a lookup of the
(case-folded, for headers) key in the source's map: a hit returns the
stored string, a miss the empty string, never an error. -/
theorem evaluateValueFrom_simpleExpr (src : ReqSource) (k : GoStr)
    (ctx : RequestContext) (hk : k.all plainKeyChar = true) :
    evaluateValueFrom (simpleExpr src k) ctx
      = match mapGet (sourceMapOf src ctx) (sourceKey src k) with
        | some s => Except.ok s
        | none => Except.ok [] := by
  unfold evaluateValueFrom
  rw [if_neg (show ¬ (hasNestedPath (simpleExpr src k) = true) from by
    rw [hasNestedPath_simpleExpr src k hk]
    simp)]
  rw [convert_simpleExpr src k hk]
  unfold jsonpathGet
  simp only [parseJsonPath_source src (sourceKey src k) (sourceKey_no_dquote src k hk),
    descend_source_field src ctx (sourceKey src k)]
  cases mapGet (sourceMapOf src ctx) (sourceKey src k) <;>
    simp [coerceResult, JPErr.isUnknownKey]

/-- The expression of a simple bracketed directive is never empty. -/
theorem simpleExpr_ne_nil (src : ReqSource) (k : GoStr) :
    ¬ simpleExpr src k = [] := by
  cases src <;> · intro h; simp [simpleExpr, sourceName] at h

/-- A directive that resolves to the empty string is a no-op of the fold:
it adds nothing under any accumulator. -/
theorem evaluateHeadersAux_skip (ctx : RequestContext) (d : HeaderItem)
    (hv : d.header.value = [])
    (hvf : ¬ d.header.valueFrom = [])
    (hok : evaluateValueFrom d.header.valueFrom ctx = Except.ok []) :
    ∀ (pre post : HeadersConfig) (acc : List (GoStr × GoStr)),
      evaluateHeadersAux ctx (pre ++ d :: post) acc
        = evaluateHeadersAux ctx (pre ++ post) acc := by
  intro pre
  induction pre with
  | nil =>
    intro post acc
    simp [evaluateHeadersAux, hv, hvf, hok]
  | cons p rest ih =>
    intro post acc
    by_cases hpv : p.header.value = []
    · by_cases hpf : p.header.valueFrom = []
      · simpa [evaluateHeadersAux, hpv, hpf] using ih post acc
      · cases hev : evaluateValueFrom p.header.valueFrom ctx with
        | error e2 => simp [evaluateHeadersAux, hpv, hpf, hev]
        | ok v =>
          by_cases hvne : v = []
          · simpa [evaluateHeadersAux, hpv, hpf, hev, hvne] using ih post acc
          · simpa [evaluateHeadersAux, hpv, hpf, hev, hvne] using
              ih post (mapSet acc p.header.name v)
    · simpa [evaluateHeadersAux, hpv] using
        ih post (mapSet acc p.header.name p.header.value)

/-- C3: for every context and every simple bracketed expression over a
plain key absent from the corresponding map, evaluation returns the empty
string with no error, and the resolver leaves that directive out of the
resolved header map entirely — the batch behaves exactly as if the
directive were not in the list. -/
theorem c3_missing_key_silent (src : ReqSource) (k : GoStr)
    (ctx : RequestContext)
    (hk : k.all plainKeyChar = true)
    (habsent : mapGet (sourceMapOf src ctx) (sourceKey src k) = none) :
    evaluateValueFrom (simpleExpr src k) ctx = Except.ok [] ∧
    ∀ (name : GoStr) (pre post : HeadersConfig),
      EvaluateHeaders (pre ++
          { header := { name := name, value := []
                        valueFrom := simpleExpr src k } } :: post) ctx
        = EvaluateHeaders (pre ++ post) ctx := by
  have h1 : evaluateValueFrom (simpleExpr src k) ctx = Except.ok [] := by
    rw [evaluateValueFrom_simpleExpr src k ctx hk, habsent]
  refine ⟨h1, ?_⟩
  intro name pre post
  exact evaluateHeadersAux_skip ctx
    { header := { name := name, value := [], valueFrom := simpleExpr src k } }
    rfl (simpleExpr_ne_nil src k) h1 pre post []

/-- C3, witnessed at the absent header key `missing` over the sample
context. -/
theorem c3_witness :
    "missing".data.all plainKeyChar = true ∧
    mapGet (sourceMapOf ReqSource.headers sampleCtx)
      (sourceKey ReqSource.headers "missing".data) = none ∧
    evaluateValueFrom (simpleExpr ReqSource.headers "missing".data) sampleCtx
      = Except.ok [] ∧
    EvaluateHeaders ([goodDirective] ++
        { header := { name := "Missing".data, value := []
                      valueFrom := simpleExpr ReqSource.headers "missing".data } }
        :: []) sampleCtx
      = EvaluateHeaders ([goodDirective] ++ []) sampleCtx := by
  refine ⟨by decide, rfl, ?_, ?_⟩
  · exact (c3_missing_key_silent ReqSource.headers "missing".data sampleCtx
      (by decide) rfl).1
  · exact (c3_missing_key_silent ReqSource.headers "missing".data sampleCtx
      (by decide) rfl).2 "Missing".data [goodDirective] []

/-- C9: header lookup is case-insensitive in both directions — the
bracketed key is folded before lookup, so the `Authorization` and
`authorization` spellings evaluate identically over every context, and a
context built from HTTP data is unchanged when an inbound header name is
re-spelled with different case — while query lookup is case-sensitive:
`ClientId` and `clientid` address distinct keys holding distinct values. -/
theorem c9_case_handling :
    (∀ ctx : RequestContext,
      evaluateValueFrom "request.headers['Authorization']".data ctx
        = evaluateValueFrom "request.headers['authorization']".data ctx) ∧
    (∀ (name name2 : GoStr) (values : List GoStr)
       (hs q f : List (GoStr × List GoStr)) (m p : GoStr),
      golower name = golower name2 →
      NewRequestContextFromHTTP ((name, values) :: hs) q f m p
        = NewRequestContextFromHTTP ((name2, values) :: hs) q f m p) ∧
    evaluateValueFrom "request.query['ClientId']".data c9QueryCtx
      = Except.ok "upper-val".data ∧
    evaluateValueFrom "request.query['clientid']".data c9QueryCtx
      = Except.ok "lower-val".data := by
  refine ⟨?_, ?_, rfl, rfl⟩
  · intro ctx
    have e1 := evaluateValueFrom_simpleExpr ReqSource.headers
      "Authorization".data ctx (by decide)
    have e2 := evaluateValueFrom_simpleExpr ReqSource.headers
      "authorization".data ctx (by decide)
    calc evaluateValueFrom "request.headers['Authorization']".data ctx
        = match mapGet (sourceMapOf ReqSource.headers ctx)
            (sourceKey ReqSource.headers "Authorization".data) with
          | some s => Except.ok s
          | none => Except.ok [] := e1
      _ = match mapGet (sourceMapOf ReqSource.headers ctx)
            (sourceKey ReqSource.headers "authorization".data) with
          | some s => Except.ok s
          | none => Except.ok [] := rfl
      _ = evaluateValueFrom "request.headers['authorization']".data ctx := e2.symm
  · intro name name2 values hs q f m p h
    unfold NewRequestContextFromHTTP
    cases values with
    | nil => rfl
    | cons v vs => simp [h]

/-- C9, witnessed at two spellings of the same inbound header name. -/
theorem c9_witness :
    golower "AUTHORIZATION".data = golower "Authorization".data ∧
    NewRequestContextFromHTTP [("AUTHORIZATION".data, ["Bearer x".data])] [] []
        "GET".data "/t".data
      = NewRequestContextFromHTTP [("Authorization".data, ["Bearer x".data])] [] []
        "GET".data "/t".data := by
  refine ⟨rfl, ?_⟩
  exact c9_case_handling.2.1 "AUTHORIZATION".data "Authorization".data
    ["Bearer x".data] [] [] [] "GET".data "/t".data rfl

/-- Setting a key then reading it back yields the set value. -/
theorem mapGet_mapSet_self (m : List (GoStr × GoStr)) (k v : GoStr) :
    mapGet (mapSet m k v) k = some v := by
  unfold mapGet mapSet
  by_cases h : (m.any fun p => p.1 == k) = true
  · rw [if_pos h, List.find?_map]
    have hpred : ((fun p : GoStr × GoStr => p.1 == k)
        ∘ fun p : GoStr × GoStr => if p.1 == k then (k, v) else p)
        = fun p : GoStr × GoStr => p.1 == k := by
      funext p
      by_cases hp : (p.1 == k) = true
      · simp only [Function.comp_apply, if_pos hp]
        simp [hp]
      · simp only [Function.comp_apply, if_neg hp]
    rw [hpred]
    cases hfind : m.find? fun p => p.1 == k with
    | none =>
      rcases List.any_eq_true.mp h with ⟨q, hq, hqk⟩
      rw [List.find?_eq_none] at hfind
      exact absurd hqk (hfind q hq)
    | some r =>
      have hrk := List.find?_some hfind
      simp only at hrk
      have hr1 : r.1 = k := by simpa using hrk
      simp [hrk, hr1]
  · rw [if_neg h, List.find?_append]
    have hnone : (m.find? fun p => p.1 == k) = none := by
      rw [List.find?_eq_none]
      intro x hx hpx
      exact h (List.any_eq_true.mpr ⟨x, hx, hpx⟩)
    rw [hnone]
    simp

/-- Setting one key leaves the binding of any other key unchanged. -/
theorem mapGet_mapSet_of_ne (m : List (GoStr × GoStr)) (k v k2 : GoStr)
    (hne : k2 ≠ k) :
    mapGet (mapSet m k v) k2 = mapGet m k2 := by
  unfold mapGet mapSet
  by_cases h : (m.any fun p => p.1 == k) = true
  · rw [if_pos h, List.find?_map]
    have hpred : ((fun p : GoStr × GoStr => p.1 == k2)
        ∘ fun p : GoStr × GoStr => if p.1 == k then (k, v) else p)
        = fun p : GoStr × GoStr => p.1 == k2 := by
      funext p
      by_cases hp : (p.1 == k) = true
      · have hpk : p.1 = k := by simpa using hp
        simp only [Function.comp_apply, if_pos hp]
        rw [hpk]
      · simp only [Function.comp_apply, if_neg hp]
    rw [hpred]
    cases hfind : m.find? fun p => p.1 == k2 with
    | none => simp
    | some r =>
      have hrk := List.find?_some hfind
      simp only at hrk
      have hrk2 : r.1 = k2 := by simpa using hrk
      have hrknotk : (r.1 == k) = false := by
        rw [hrk2]
        simp only [beq_eq_false_iff_ne, ne_eq]
        exact hne
      simp only [Option.map_some', Option.some.injEq]
      rw [hrk2] at hrknotk
      rw [hrk2]
      simp [hrknotk]
  · rw [if_neg h, List.find?_append]
    have hsingle : (([((k, v) : GoStr × GoStr)]).find? fun p => p.1 == k2) = none := by
      simp only [List.find?_cons]
      have : ((k, v).1 == k2) = false := by
        simp only [beq_eq_false_iff_ne, ne_eq]
        exact fun h2 => hne h2.symm
      simp [this]
    rw [hsingle]
    cases m.find? fun p => p.1 == k2 <;> rfl

/-- The first-value fold never touches a key none of its entries
normalizes to. -/
theorem mapGet_firstValueFold_skip (f : GoStr → GoStr)
    (entries : List (GoStr × List GoStr)) (acc : List (GoStr × GoStr))
    (k : GoStr) (h : ∀ p ∈ entries, f p.1 ≠ k) :
    mapGet (entries.foldl (fun m p =>
      match p.2 with
      | [] => m
      | v :: _ => mapSet m (f p.1) v) acc) k = mapGet acc k := by
  induction entries generalizing acc with
  | nil => rfl
  | cons p rest ih =>
    have hp : f p.1 ≠ k := h p (List.mem_cons_self p rest)
    have hrest : ∀ q ∈ rest, f q.1 ≠ k := fun q hq => h q (List.mem_cons_of_mem p hq)
    cases hv : p.2 with
    | nil =>
      simp only [List.foldl_cons, hv]
      exact ih acc hrest
    | cons v vs =>
      simp only [List.foldl_cons, hv]
      rw [ih (mapSet acc (f p.1) v) hrest]
      exact mapGet_mapSet_of_ne acc (f p.1) v k (Ne.symm hp)

/-- The first-value fold binds a uniquely-normalized key to the first
value of its entry. -/
theorem mapGet_firstValueFold (f : GoStr → GoStr)
    (l1 l2 : List (GoStr × List GoStr)) (name v : GoStr) (vs : List GoStr)
    (acc : List (GoStr × GoStr))
    (h : ∀ p ∈ l2, f p.1 ≠ f name) :
    mapGet ((l1 ++ (name, v :: vs) :: l2).foldl (fun m p =>
      match p.2 with
      | [] => m
      | w :: _ => mapSet m (f p.1) w) acc) (f name) = some v := by
  rw [List.foldl_append]
  simp only [List.foldl_cons]
  rw [mapGet_firstValueFold_skip f l2 _ (f name) h]
  exact mapGet_mapSet_self _ (f name) v

/-- C10: a `RequestContext` built from inbound HTTP data retains only the
first value of each multi-valued header, repeated query parameter or
repeated form field (key sets taken distinct, as Go map iteration
provides), so expression evaluation can only ever observe the first value
of a repeated inbound field. -/
theorem c10_first_value_only (headers query form : List (GoStr × List GoStr))
    (method path : GoStr) (name v : GoStr) (vs : List GoStr) :
    ((headers.map fun p => golower p.1).Nodup → (name, v :: vs) ∈ headers →
      mapGet (NewRequestContextFromHTTP headers query form method path).headers
        (golower name) = some v) ∧
    ((query.map Prod.fst).Nodup → (name, v :: vs) ∈ query →
      mapGet (NewRequestContextFromHTTP headers query form method path).query
        name = some v) ∧
    ((form.map Prod.fst).Nodup → (name, v :: vs) ∈ form →
      mapGet (NewRequestContextFromHTTP headers query form method path).form
        name = some v) := by
  refine ⟨?_, ?_, ?_⟩
  · intro hnd hmem
    rcases List.append_of_mem hmem with ⟨l1, l2, rfl⟩
    rw [List.map_append, List.map_cons] at hnd
    rcases List.nodup_append.mp hnd with ⟨-, hnd2, -⟩
    have hnotin := (List.nodup_cons.mp hnd2).1
    have h2 : ∀ p ∈ l2, golower p.1 ≠ golower name := by
      intro p hp heq
      exact hnotin (heq ▸ List.mem_map_of_mem (fun q => golower q.1) hp)
    exact mapGet_firstValueFold golower l1 l2 name v vs [] h2
  · intro hnd hmem
    rcases List.append_of_mem hmem with ⟨l1, l2, rfl⟩
    rw [List.map_append, List.map_cons] at hnd
    rcases List.nodup_append.mp hnd with ⟨-, hnd2, -⟩
    have hnotin := (List.nodup_cons.mp hnd2).1
    have h2x : ∀ p ∈ l2, p.1 ≠ name := by
      intro p hp heq
      have hmm := List.mem_map_of_mem Prod.fst hp
      rw [heq] at hmm
      exact hnotin hmm
    exact mapGet_firstValueFold (fun x => x) l1 l2 name v vs []
      fun p hp heq => h2x p hp heq
  · intro hnd hmem
    rcases List.append_of_mem hmem with ⟨l1, l2, rfl⟩
    rw [List.map_append, List.map_cons] at hnd
    rcases List.nodup_append.mp hnd with ⟨-, hnd2, -⟩
    have hnotin := (List.nodup_cons.mp hnd2).1
    have h2x : ∀ p ∈ l2, p.1 ≠ name := by
      intro p hp heq
      have hmm := List.mem_map_of_mem Prod.fst hp
      rw [heq] at hmm
      exact hnotin hmm
    exact mapGet_firstValueFold (fun x => x) l1 l2 name v vs []
      fun p hp heq => h2x p hp heq

/-- C10, witnessed at a repeated header and a repeated query parameter. -/
theorem c10_witness :
    mapGet (NewRequestContextFromHTTP
        [("X-Multi".data, ["first".data, "second".data])]
        [("p".data, ["a".data, "b".data])] [] "GET".data "/t".data).headers
      (golower "X-Multi".data) = some "first".data ∧
    mapGet (NewRequestContextFromHTTP
        [("X-Multi".data, ["first".data, "second".data])]
        [("p".data, ["a".data, "b".data])] [] "GET".data "/t".data).query
      "p".data = some "a".data := by
  constructor
  · exact (c10_first_value_only
      [("X-Multi".data, ["first".data, "second".data])]
      [("p".data, ["a".data, "b".data])] [] "GET".data "/t".data
      "X-Multi".data "first".data ["second".data]).1 (by decide) (by decide)
  · exact (c10_first_value_only
      [("X-Multi".data, ["first".data, "second".data])]
      [("p".data, ["a".data, "b".data])] [] "GET".data "/t".data
      "p".data "a".data ["b".data]).2.1 (by decide) (by decide)

end Mcpify
